import Mathlib

/-!
# ply::TextConverter — streaming text transcoder

A shallow embedding of `TextConverter.cpp` (plywood runtime) and theorems about it.

* A buffer window (`BufferView`, `ConstBufferView`) is the list of its bytes; the
  destination window is modelled by the number of bytes still free in it together with
  the bytes that have been stored through it since the call began.
* A `PLY_ASSERT` that fails ends the call with `Except.error`; the fault carries the line
  of the statement in `TextConverter.cpp`.
* The two `while` loops of `convert` are recursive functions over an iteration budget.
  The budget that `convert` hands to them is shown to be never used up.
-/

namespace ply

/-- Status of a decode, `DecodeResult::Status`. Only `Truncated` is tested by the converter. -/
inductive Status where
  | Ok
  | Truncated
  | Invalid
deriving DecidableEq, Repr

/-- Result of decoding one code point: `DecodeResult`. -/
structure DecodeResult where
  point : Int
  status : Status
  numBytes : Nat
deriving DecidableEq, Repr

/-- The encoding capability `TextEncoding`, which the converter takes as a parameter.
`decodePoint view` decodes one code point from the head of `view`.
`encodePoint cap point` is the list of bytes that the encoder stores into a buffer with
`cap` bytes of room; the length of that list is the `u32` it returns. -/
structure TextEncoding where
  unitSize : Nat
  decodePoint : List Nat → DecodeResult
  encodePoint : Nat → Int → List Nat

/-- The members of `TextConverter` that change between calls: the two four-byte
`SmallBuffer`s, each as the list of its `numBytes` live bytes. -/
structure TextConverter where
  srcSmallBuf : List Nat
  dstSmallBuf : List Nat
deriving DecidableEq, Repr

/-- A converter as left by the constructor: both small buffers hold nothing. -/
def TextConverter.fresh : TextConverter := ⟨[], []⟩

/-- Ways in which a call stops without returning. `assertion line`: the `PLY_ASSERT` on that
line of `TextConverter.cpp` does not hold. `outOfRange line`: the statement on that line
advances a window (`offsetHead`) or pops a small buffer (`popFront`) by more bytes than it
holds. `budget`: the iteration budget of a loop ran out. -/
inductive Fault where
  | assertion (line : Nat)
  | outOfRange (line : Nat)
  | budget
deriving DecidableEq, Repr

/-- Everything `convert` reads and writes during one call.
`written` are the bytes stored through `dstBuf` since entry, in order, and `dstNumBytes`
is `dstBuf->numBytes`; `srcBuf` are the bytes of `*srcBuf`. -/
structure Conv where
  srcSmallBuf : List Nat
  dstSmallBuf : List Nat
  written : List Nat
  dstNumBytes : Nat
  srcBuf : List Nat
  didWork : Bool
deriving DecidableEq, Repr

/-- The state on entry to `convert`: nothing written yet and `didWork = false`. -/
def Conv.enter (self : TextConverter) (dstNumBytes : Nat) (srcBuf : List Nat) : Conv :=
  { srcSmallBuf := self.srcSmallBuf, dstSmallBuf := self.dstSmallBuf, written := [],
    dstNumBytes := dstNumBytes, srcBuf := srcBuf, didWork := false }

/-- The converter members after the call. -/
def Conv.converter (c : Conv) : TextConverter := ⟨c.srcSmallBuf, c.dstSmallBuf⟩

/-- Modelled from the spec: `SmallBuffer::popFront` and `BufferView::offsetHead` are declared
in headers that are not part of the sources. The spec describes them as popping bytes from
the front of a carry buffer and advancing a window; both are `List.drop` here, and the
callers below check that the count does not exceed the bytes held. -/
def popFront (bytes : List Nat) (numBytesToPop : Nat) : List Nat := bytes.drop numBytesToPop

/-- The lambda `flushDstSmallBuf` of `convert` (lines 22-31). -/
def flushDstSmallBuf (c : Conv) : Conv :=
  let numBytesToCopy := min c.dstSmallBuf.length c.dstNumBytes
  if numBytesToCopy > 0 then
    { c with
      written := c.written ++ c.dstSmallBuf.take numBytesToCopy
      dstSmallBuf := popFront c.dstSmallBuf numBytesToCopy
      dstNumBytes := c.dstNumBytes - numBytesToCopy
      didWork := true }
  else c

/-- The second loop of `convert` (lines 85-123), entered with both small buffers empty. -/
def convertMainLoop (dstEncoding srcEncoding : TextEncoding) (flush : Bool) :
    Nat → Conv → Except Fault Conv
  | 0, _ => .error .budget
  | budget + 1, c =>
    if c.srcBuf.length > 0 then
      let decoded := srcEncoding.decodePoint c.srcBuf
      if decoded.point < 0 then .error (.assertion 88) else
      let c := { c with didWork := true }
      if decoded.status = Status.Truncated ∧ flush = false then
        if ¬ c.srcBuf.length < 4 then .error (.assertion 93) else
        .ok { c with srcSmallBuf := c.srcBuf, srcBuf := [] }
      else
        if decoded.numBytes > c.srcBuf.length then .error (.outOfRange 101) else
        let c := { c with srcBuf := c.srcBuf.drop decoded.numBytes }
        if c.dstNumBytes ≥ 4 then
          let encoded := dstEncoding.encodePoint c.dstNumBytes decoded.point
          if ¬ encoded.length > 0 then .error (.assertion 106) else
          if encoded.length > c.dstNumBytes then .error (.outOfRange 107) else
          convertMainLoop dstEncoding srcEncoding flush budget
            { c with written := c.written ++ encoded
                     dstNumBytes := c.dstNumBytes - encoded.length }
        else
          let encoded := dstEncoding.encodePoint 4 decoded.point
          if ¬ encoded.length > 0 then .error (.assertion 113) else
          let c := flushDstSmallBuf { c with dstSmallBuf := encoded }
          if c.dstNumBytes = 0 then .ok c else
          convertMainLoop dstEncoding srcEncoding flush budget c
    else .ok c

/-- Lines 79-123 of `convert`: the three assertions between the loops, then the second
loop. Each pass of that loop that does not leave it stores at least one byte through
`dstBuf`, so `dstNumBytes + 1` passes are enough. -/
def convertAfterCarry (dstEncoding srcEncoding : TextEncoding) (flush : Bool) (c : Conv) :
    Except Fault Conv :=
  if ¬ c.dstNumBytes > 0 then .error (.assertion 81) else
  if ¬ c.dstSmallBuf.length = 0 then .error (.assertion 82) else
  if ¬ c.srcSmallBuf.length = 0 then .error (.assertion 83) else
  convertMainLoop dstEncoding srcEncoding flush (c.dstNumBytes + 1) c

/-- The first loop of `convert` (lines 33-77); leaving it (by `break` or because its
condition fails) continues at line 79. `decoded.numBytes - smallBufInitialNumBytes` is a
subtraction of `u32` values and wraps modulo `2^32`. `srcSmallBuf` is an array of 4 bytes,
so `4 - srcSmallBuf.numBytes` does not wrap. The `memcpy` of lines 52-53 copies from the
source window and leaves the window where it is. -/
def convertCarryLoop (dstEncoding srcEncoding : TextEncoding) (flush : Bool) :
    Nat → Conv → Except Fault Conv
  | 0, _ => .error .budget
  | budget + 1, c =>
    if c.dstSmallBuf.length > 0 ∨ c.srcSmallBuf.length > 0 then
      let c := flushDstSmallBuf c
      if c.dstNumBytes = 0 then .ok c else
      if ¬ c.dstSmallBuf.length = 0 then .error (.assertion 40) else
      if c.srcSmallBuf.length = 0 then convertAfterCarry dstEncoding srcEncoding flush c else
      let smallBufInitialNumBytes := c.srcSmallBuf.length
      let numBytesToAppend := min (4 - c.srcSmallBuf.length) c.srcBuf.length
      let c := { c with srcSmallBuf := c.srcSmallBuf ++ c.srcBuf.take numBytesToAppend }
      let decoded := srcEncoding.decodePoint c.srcSmallBuf
      if decoded.point < 0 then .error (.assertion 58) else
      if decoded.status = Status.Truncated ∧ flush = false then
        if ¬ c.srcSmallBuf.length < 4 then .error (.assertion 61) else
        .ok c
      else
        let ofs := (decoded.numBytes + 4294967296 - smallBufInitialNumBytes) % 4294967296
        if ofs > c.srcBuf.length then .error (.outOfRange 66) else
        if decoded.numBytes > c.srcSmallBuf.length then .error (.outOfRange 67) else
        let c := { c with
                   srcBuf := c.srcBuf.drop ofs
                   srcSmallBuf := popFront c.srcSmallBuf decoded.numBytes
                   didWork := true }
        let encoded := dstEncoding.encodePoint 4 decoded.point
        if ¬ encoded.length > 0 then .error (.assertion 74) else
        convertCarryLoop dstEncoding srcEncoding flush budget { c with dstSmallBuf := encoded }
    else convertAfterCarry dstEncoding srcEncoding flush c

/-- `TextConverter::convert(dstBuf, srcBuf, flush)` (lines 19-124). The result holds the
value returned (`didWork`), the two windows and the converter members on return. Two
passes of the first loop store at least one byte through `dstBuf`, so `2 * dstNumBytes + 2`
passes are enough. -/
def convert (dstEncoding srcEncoding : TextEncoding) (self : TextConverter)
    (dstNumBytes : Nat) (srcBuf : List Nat) (flush : Bool) : Except Fault Conv :=
  convertCarryLoop dstEncoding srcEncoding flush (2 * dstNumBytes + 2)
    (Conv.enter self dstNumBytes srcBuf)

/-- Result of `writeTo`: the value returned (`anyWorkDone`), the bytes committed to the
sink in order, the converter members and the source window on return, and the outcome of
each `convert` call made, in order. -/
structure WriteResult where
  anyWorkDone : Bool
  committed : List Nat
  converter : TextConverter
  srcBuf : List Nat
  calls : List Conv
deriving DecidableEq, Repr

/-- `TextConverter::writeTo(outs, srcBuf, flush)` (lines 126-141). Modelled from the spec:
the `OutStream` is not part of the sources; it is the list of the sizes of the writable
windows it goes on to expose, `tryMakeBytesAvailable` failing once the list is used up.
`outs->curByte = dstBuf.bytes` commits what the call stored through `dstBuf`. -/
def writeTo (dstEncoding srcEncoding : TextEncoding) (flush : Bool) :
    List Nat → TextConverter → List Nat → Except Fault WriteResult
  | [], self, srcBuf =>
    .ok { anyWorkDone := false, committed := [], converter := self, srcBuf := srcBuf,
          calls := [] }
  | dstNumBytes :: outs, self, srcBuf =>
    match convert dstEncoding srcEncoding self dstNumBytes srcBuf flush with
    | .error f => .error f
    | .ok r =>
      if r.didWork = false then
        .ok { anyWorkDone := false, committed := r.written, converter := r.converter,
              srcBuf := r.srcBuf, calls := [r] }
      else
        match writeTo dstEncoding srcEncoding flush outs r.converter r.srcBuf with
        | .error f => .error f
        | .ok t =>
          .ok { t with anyWorkDone := true, committed := r.written ++ t.committed,
                       calls := r :: t.calls }

/-- `TextConverter::convertInternal` (lines 172-180): `writeTo` with `flush = true` on a
converter just constructed; the buffer returned holds the bytes committed. `outs` are the
window sizes the `MemOutStream` exposes. -/
def convertInternal (dstEncoding srcEncoding : TextEncoding) (outs : List Nat)
    (srcText : List Nat) : Except Fault (List Nat) :=
  match writeTo dstEncoding srcEncoding true outs TextConverter.fresh srcText with
  | .error f => .error f
  | .ok t => if ¬ dstEncoding.unitSize > 0 then .error (.assertion 178) else .ok t.committed

/-! ## The encoding contract and the reference transcoding

These follow the wording of the specification, not the code. -/

/-- The contract of a pair of encodings as the specification words it. On a non-empty input
`decodePoint` yields a code point that is not negative, consumes at least one byte and at
most `min 4 (input length)` bytes, and says `Truncated` only when the input has fewer than
4 bytes. For a code point that is not negative and room for at least 4 bytes,
`encodePoint` stores between 1 and 4 bytes, the same bytes whatever the room. -/
structure WellBehaved (dstEncoding srcEncoding : TextEncoding) : Prop where
  point_nonneg : ∀ view, view ≠ [] → 0 ≤ (srcEncoding.decodePoint view).point
  numBytes_pos : ∀ view, view ≠ [] → 1 ≤ (srcEncoding.decodePoint view).numBytes
  numBytes_le : ∀ view, view ≠ [] →
    (srcEncoding.decodePoint view).numBytes ≤ min 4 view.length
  truncated_short : ∀ view, view ≠ [] →
    (srcEncoding.decodePoint view).status = Status.Truncated → view.length < 4
  encode_pos : ∀ cap point, 4 ≤ cap → 0 ≤ point →
    1 ≤ (dstEncoding.encodePoint cap point).length
  encode_le : ∀ cap point, 4 ≤ cap → 0 ≤ point →
    (dstEncoding.encodePoint cap point).length ≤ 4
  encode_room : ∀ cap point, 4 ≤ cap → 0 ≤ point →
    dstEncoding.encodePoint cap point = dstEncoding.encodePoint 4 point

/-- The code points obtained by applying `decodePoint` again and again to what is left of
the source, at most `n` times. -/
def decodeAll (srcEncoding : TextEncoding) : Nat → List Nat → List Int
  | 0, _ => []
  | n + 1, src =>
    if src = [] then []
    else
      (srcEncoding.decodePoint src).point ::
        decodeAll srcEncoding n (src.drop (srcEncoding.decodePoint src).numBytes)

/-- The code points of a whole source; a decode consumes at least one byte, so
`src.length` decodes are enough. -/
def codePoints (srcEncoding : TextEncoding) (src : List Nat) : List Int :=
  decodeAll srcEncoding src.length src

/-- The reference transcoding: the encodings of the code points of the source, one after
the other in decode order. -/
def reference (dstEncoding srcEncoding : TextEncoding) (src : List Nat) : List Nat :=
  ((codePoints srcEncoding src).map (dstEncoding.encodePoint 4)).flatten

/-- The driver of the destination-size scenario: `convert` with `flush = true` is called
once per destination window, each time on the part of the source not yet consumed, until
the source is empty and `dstSmallBuf` is drained. Gives the bytes written to the
successive windows, one after the other, and the converter and source window at the end. -/
def convertInto (dstEncoding srcEncoding : TextEncoding) :
    List Nat → TextConverter → List Nat → Except Fault (List Nat × TextConverter × List Nat)
  | [], self, srcBuf => .ok ([], self, srcBuf)
  | dstNumBytes :: windows, self, srcBuf =>
    if srcBuf = [] ∧ self.dstSmallBuf = [] then .ok ([], self, srcBuf)
    else
      match convert dstEncoding srcEncoding self dstNumBytes srcBuf true with
      | .error f => .error f
      | .ok r =>
        match convertInto dstEncoding srcEncoding windows r.converter r.srcBuf with
        | .error f => .error f
        | .ok (out, self', srcBuf') => .ok (r.written ++ out, self', srcBuf')

/-- The converters that calls of `convert` can leave behind, starting from a converter
just constructed. -/
inductive Reachable (dstEncoding srcEncoding : TextEncoding) : TextConverter → Prop where
  | fresh : Reachable dstEncoding srcEncoding TextConverter.fresh
  | call (self : TextConverter) (dstNumBytes : Nat) (srcBuf : List Nat) (flush : Bool)
      (r : Conv) :
      Reachable dstEncoding srcEncoding self →
      convert dstEncoding srcEncoding self dstNumBytes srcBuf flush = .ok r →
      Reachable dstEncoding srcEncoding r.converter

/-- The quantity that goes down from one pass of the first loop of `convert` to the next:
twice the room left in the destination window, plus one while `dstSmallBuf` is empty. -/
def carryMeasure (c : Conv) : Nat :=
  2 * c.dstNumBytes + (if c.dstSmallBuf.length = 0 then 1 else 0)

/-! ## Sample encodings -/

/-- A single-byte encoding in which every byte is its own code point. -/
def latin1 : TextEncoding where
  unitSize := 1
  decodePoint := fun view =>
    match view with
    | [] => ⟨0, Status.Truncated, 0⟩
    | b :: _ => ⟨(b : Int), Status.Ok, 1⟩
  encodePoint := fun _ point => [point.toNat % 256]

/-- Decoder of a UTF-8 shaped encoding: the lead byte fixes the width of the unit (1 to 4
bytes); a unit that is cut short is `Truncated` and a stray continuation byte is `Invalid`,
and either way the decoder hands back the lead byte as the code point and consumes it. -/
def utf8Decode (view : List Nat) : DecodeResult :=
  match view with
  | [] => ⟨0, Status.Truncated, 0⟩
  | b :: rest =>
    if b < 0x80 then ⟨(b : Int), Status.Ok, 1⟩
    else if b < 0xC0 then ⟨(b : Int), Status.Invalid, 1⟩
    else if b < 0xE0 then
      match rest with
      | c1 :: _ => ⟨((b % 32 * 64 + c1 % 64 : Nat) : Int), Status.Ok, 2⟩
      | _ => ⟨(b : Int), Status.Truncated, 1⟩
    else if b < 0xF0 then
      match rest with
      | c1 :: c2 :: _ => ⟨(((b % 16 * 64 + c1 % 64) * 64 + c2 % 64 : Nat) : Int), Status.Ok, 3⟩
      | _ => ⟨(b : Int), Status.Truncated, 1⟩
    else
      match rest with
      | c1 :: c2 :: c3 :: _ =>
        ⟨((((b % 8 * 64 + c1 % 64) * 64 + c2 % 64) * 64 + c3 % 64 : Nat) : Int), Status.Ok, 4⟩
      | _ => ⟨(b : Int), Status.Truncated, 1⟩

/-- Encoder of the UTF-8 shaped encoding: 1 to 4 bytes, whatever the room offered. -/
def utf8Encode (point : Int) : List Nat :=
  let p := point.toNat
  if p < 0x80 then [p]
  else if p < 0x800 then [0xC0 + p / 64, 0x80 + p % 64]
  else if p < 0x10000 then [0xE0 + p / 4096, 0x80 + p / 64 % 64, 0x80 + p % 64]
  else [0xF0 + p / 262144 % 8, 0x80 + p / 4096 % 64, 0x80 + p / 64 % 64, 0x80 + p % 64]

/-- The UTF-8 shaped sample encoding. -/
def utf8Like : TextEncoding where
  unitSize := 1
  decodePoint := utf8Decode
  encodePoint := fun _ point => utf8Encode point

/-- A four-byte sample encoding: a code point is stored as 4 bytes, lowest byte first. -/
def utf32Like : TextEncoding where
  unitSize := 4
  decodePoint := fun view =>
    match view with
    | b0 :: b1 :: b2 :: b3 :: _ =>
      ⟨((b0 + 256 * b1 + 65536 * b2 + 16777216 * b3 : Nat) : Int), Status.Ok, 4⟩
    | _ => ⟨0, Status.Truncated, view.length⟩
  encodePoint := fun _ point =>
    [point.toNat % 256, point.toNat / 256 % 256, point.toNat / 65536 % 256,
      point.toNat / 16777216 % 256]

/-- The list `calls` holds the outcomes of successive `convert` calls: one per window of
`outs`, in order, the first on the converter `self` and the source window `srcBuf`, each
next one on the converter and the source window left by the call before it. -/
def IsCallChain (dstEncoding srcEncoding : TextEncoding) (flush : Bool) :
    List Nat → TextConverter → List Nat → List Conv → Prop
  | _, _, _, [] => True
  | [], _, _, _ :: _ => False
  | dstNumBytes :: outs, self, srcBuf, r :: rs =>
    convert dstEncoding srcEncoding self dstNumBytes srcBuf flush = .ok r ∧
      IsCallChain dstEncoding srcEncoding flush outs r.converter r.srcBuf rs

/-- Result of `readFrom`: the value returned (`totalBytesWritten`), the bytes stored through
`dstBuf`, the room left in `dstBuf`, the converter members, the bytes the stream still has
available after the last commit, and the `flush` of the last `convert` call. -/
structure ReadResult where
  totalBytesWritten : Nat
  written : List Nat
  dstNumBytes : Nat
  converter : TextConverter
  available : List Nat
  flush : Bool
deriving DecidableEq, Repr

/-- The loop of `TextConverter::readFrom` (lines 145-168), with `totalBytesWritten` and the
bytes already stored through `dstBuf` as arguments. Modelled from the spec: the `InStream`
is not part of the sources; it is the list of what it exposes at the successive passes of
the loop, after `tryMakeBytesAvailable(4)`: the bytes of `viewAvailable()` and the value of
`atEOF()`. A pass beyond the end of that list is `Fault.budget`. `safeDemote<s32>` is not
part of the sources either: a count that does not fit `s32` ends the call. The sum is a
`u32` and wraps modulo `2^32`. -/
def readFromLoop (dstEncoding srcEncoding : TextEncoding) :
    List (List Nat × Bool) → TextConverter → List Nat → Nat → Nat → Except Fault ReadResult
  | [], _, _, _, _ => .error .budget
  | (view, atEOF) :: ins, self, written, dstNumBytes, totalBytesWritten =>
    let flush := atEOF
    match convert dstEncoding srcEncoding self dstNumBytes view flush with
    | .error f => .error f
    | .ok r =>
      let numBytesWritten := r.written.length
      if ¬ numBytesWritten < 2147483648 then .error (.outOfRange 157) else
      let totalBytesWritten := (totalBytesWritten + numBytesWritten) % 4294967296
      if numBytesWritten > 0 then
        .ok ⟨totalBytesWritten, written ++ r.written, r.dstNumBytes, r.converter, r.srcBuf,
          flush⟩
      else if flush = true then
        if ¬ r.srcBuf.length = 0 then .error (.assertion 165) else
        .ok ⟨totalBytesWritten, written ++ r.written, r.dstNumBytes, r.converter, r.srcBuf,
          flush⟩
      else
        readFromLoop dstEncoding srcEncoding ins r.converter (written ++ r.written)
          r.dstNumBytes totalBytesWritten

/-- `TextConverter::readFrom(ins, dstBuf)` (lines 143-170). -/
def readFrom (dstEncoding srcEncoding : TextEncoding) (ins : List (List Nat × Bool))
    (self : TextConverter) (dstNumBytes : Nat) : Except Fault ReadResult :=
  readFromLoop dstEncoding srcEncoding ins self [] dstNumBytes 0

/-- A request that `convert` makes to an encoding during a call, with the line of
`TextConverter.cpp` that makes it and the number of bytes held in `dstSmallBuf` at that
moment. `decode line view n`: `decodePoint` is called on `view`. `encode line room n`:
`encodePoint` is called with a buffer of `room` bytes. -/
inductive Event where
  | decode (line : Nat) (view : List Nat) (dstSmallBufNumBytes : Nat)
  | encode (line : Nat) (room : Nat) (dstSmallBufNumBytes : Nat)
deriving DecidableEq, Repr

/-- The request is made while `dstSmallBuf` holds nothing. -/
def Event.dstSmallBufEmpty : Event → Prop
  | .decode _ _ n => n = 0
  | .encode _ _ n => n = 0

/-- A call of `encodePoint` is given at least 4 bytes: the destination window at line 105,
and otherwise the 4 bytes of `dstSmallBuf`. -/
def Event.roomForUnit : Event → Prop
  | .decode _ _ _ => True
  | .encode line room _ => 4 ≤ room ∧ (line ≠ 105 → room = 4)

/-- The second loop of `convert` as in `convertMainLoop`, recording in `log` each call of
`decodePoint` (line 87) and of `encodePoint` (lines 105 and 110). -/
def convertMainLoopLog (dstEncoding srcEncoding : TextEncoding) (flush : Bool) :
    Nat → Conv → List Event → Except Fault Conv × List Event
  | 0, _, log => (.error .budget, log)
  | budget + 1, c, log =>
    if c.srcBuf.length > 0 then
      let log := log ++ [Event.decode 87 c.srcBuf c.dstSmallBuf.length]
      let decoded := srcEncoding.decodePoint c.srcBuf
      if decoded.point < 0 then (.error (.assertion 88), log) else
      let c := { c with didWork := true }
      if decoded.status = Status.Truncated ∧ flush = false then
        if ¬ c.srcBuf.length < 4 then (.error (.assertion 93), log) else
        (.ok { c with srcSmallBuf := c.srcBuf, srcBuf := [] }, log)
      else
        if decoded.numBytes > c.srcBuf.length then (.error (.outOfRange 101), log) else
        let c := { c with srcBuf := c.srcBuf.drop decoded.numBytes }
        if c.dstNumBytes ≥ 4 then
          let log := log ++ [Event.encode 105 c.dstNumBytes c.dstSmallBuf.length]
          let encoded := dstEncoding.encodePoint c.dstNumBytes decoded.point
          if ¬ encoded.length > 0 then (.error (.assertion 106), log) else
          if encoded.length > c.dstNumBytes then (.error (.outOfRange 107), log) else
          convertMainLoopLog dstEncoding srcEncoding flush budget
            { c with written := c.written ++ encoded
                     dstNumBytes := c.dstNumBytes - encoded.length } log
        else
          let log := log ++ [Event.encode 110 4 c.dstSmallBuf.length]
          let encoded := dstEncoding.encodePoint 4 decoded.point
          if ¬ encoded.length > 0 then (.error (.assertion 113), log) else
          let c := flushDstSmallBuf { c with dstSmallBuf := encoded }
          if c.dstNumBytes = 0 then (.ok c, log) else
          convertMainLoopLog dstEncoding srcEncoding flush budget c log
    else (.ok c, log)

/-- Lines 79-123 of `convert` as in `convertAfterCarry`, with the log. -/
def convertAfterCarryLog (dstEncoding srcEncoding : TextEncoding) (flush : Bool) (c : Conv)
    (log : List Event) : Except Fault Conv × List Event :=
  if ¬ c.dstNumBytes > 0 then (.error (.assertion 81), log) else
  if ¬ c.dstSmallBuf.length = 0 then (.error (.assertion 82), log) else
  if ¬ c.srcSmallBuf.length = 0 then (.error (.assertion 83), log) else
  convertMainLoopLog dstEncoding srcEncoding flush (c.dstNumBytes + 1) c log

/-- The first loop of `convert` as in `convertCarryLoop`, recording in `log` each call of
`decodePoint` (line 57) and of `encodePoint` (line 71). -/
def convertCarryLoopLog (dstEncoding srcEncoding : TextEncoding) (flush : Bool) :
    Nat → Conv → List Event → Except Fault Conv × List Event
  | 0, _, log => (.error .budget, log)
  | budget + 1, c, log =>
    if c.dstSmallBuf.length > 0 ∨ c.srcSmallBuf.length > 0 then
      let c := flushDstSmallBuf c
      if c.dstNumBytes = 0 then (.ok c, log) else
      if ¬ c.dstSmallBuf.length = 0 then (.error (.assertion 40), log) else
      if c.srcSmallBuf.length = 0 then
        convertAfterCarryLog dstEncoding srcEncoding flush c log else
      let smallBufInitialNumBytes := c.srcSmallBuf.length
      let numBytesToAppend := min (4 - c.srcSmallBuf.length) c.srcBuf.length
      let c := { c with srcSmallBuf := c.srcSmallBuf ++ c.srcBuf.take numBytesToAppend }
      let log := log ++ [Event.decode 57 c.srcSmallBuf c.dstSmallBuf.length]
      let decoded := srcEncoding.decodePoint c.srcSmallBuf
      if decoded.point < 0 then (.error (.assertion 58), log) else
      if decoded.status = Status.Truncated ∧ flush = false then
        if ¬ c.srcSmallBuf.length < 4 then (.error (.assertion 61), log) else
        (.ok c, log)
      else
        let ofs := (decoded.numBytes + 4294967296 - smallBufInitialNumBytes) % 4294967296
        if ofs > c.srcBuf.length then (.error (.outOfRange 66), log) else
        if decoded.numBytes > c.srcSmallBuf.length then (.error (.outOfRange 67), log) else
        let c := { c with
                   srcBuf := c.srcBuf.drop ofs
                   srcSmallBuf := popFront c.srcSmallBuf decoded.numBytes
                   didWork := true }
        let log := log ++ [Event.encode 71 4 c.dstSmallBuf.length]
        let encoded := dstEncoding.encodePoint 4 decoded.point
        if ¬ encoded.length > 0 then (.error (.assertion 74), log) else
        convertCarryLoopLog dstEncoding srcEncoding flush budget
          { c with dstSmallBuf := encoded } log
    else convertAfterCarryLog dstEncoding srcEncoding flush c log

/-- `convert` together with the log of the requests it makes to the two encodings. -/
def convertLog (dstEncoding srcEncoding : TextEncoding) (self : TextConverter)
    (dstNumBytes : Nat) (srcBuf : List Nat) (flush : Bool) :
    Except Fault Conv × List Event :=
  convertCarryLoopLog dstEncoding srcEncoding flush (2 * dstNumBytes + 2)
    (Conv.enter self dstNumBytes srcBuf) []

/-! ## Lemmas on `flushDstSmallBuf` and on the iteration budgets -/

theorem flushDstSmallBuf_eq (c : Conv) :
    flushDstSmallBuf c =
      { c with
        written := c.written ++ c.dstSmallBuf.take c.dstNumBytes
        dstSmallBuf := c.dstSmallBuf.drop c.dstNumBytes
        dstNumBytes := c.dstNumBytes - c.dstSmallBuf.length
        didWork := c.didWork || (decide (0 < c.dstSmallBuf.length) && decide (0 < c.dstNumBytes)) } := by
  obtain ⟨ss, ds, wr, d, sb, dw⟩ := c
  unfold flushDstSmallBuf popFront
  simp only
  rcases Nat.le_total ds.length d with h | h
  · rw [Nat.min_eq_left h]
    by_cases h0 : ds.length > 0
    · have hd : 0 < d := by omega
      simp [h0, hd, List.take_of_length_le h, List.drop_of_length_le h]
    · have : ds = [] := by
        cases ds with
        | nil => rfl
        | cons a t => simp at h0
      subst this
      simp
  · rw [Nat.min_eq_right h]
    by_cases h0 : d > 0
    · have hd : 0 < ds.length := by omega
      simp [h0, hd]
      omega
    · have : d = 0 := by omega
      subst this
      simp

theorem flushDstSmallBuf_dstNumBytes (c : Conv) :
    (flushDstSmallBuf c).dstNumBytes = c.dstNumBytes - c.dstSmallBuf.length := by
  rw [flushDstSmallBuf_eq]

theorem flushDstSmallBuf_srcSmallBuf (c : Conv) :
    (flushDstSmallBuf c).srcSmallBuf = c.srcSmallBuf := by
  rw [flushDstSmallBuf_eq]

theorem flushDstSmallBuf_srcBuf (c : Conv) : (flushDstSmallBuf c).srcBuf = c.srcBuf := by
  rw [flushDstSmallBuf_eq]

theorem flushDstSmallBuf_dstSmallBuf (c : Conv) :
    (flushDstSmallBuf c).dstSmallBuf = c.dstSmallBuf.drop c.dstNumBytes := by
  rw [flushDstSmallBuf_eq]

theorem flushDstSmallBuf_written (c : Conv) :
    (flushDstSmallBuf c).written = c.written ++ c.dstSmallBuf.take c.dstNumBytes := by
  rw [flushDstSmallBuf_eq]

theorem convertMainLoop_budget (dstEncoding srcEncoding : TextEncoding) (flush : Bool) :
    ∀ (b1 b2 : Nat) (c : Conv), c.dstNumBytes < b1 → c.dstNumBytes < b2 →
      convertMainLoop dstEncoding srcEncoding flush b1 c =
        convertMainLoop dstEncoding srcEncoding flush b2 c := by
  intro b1
  induction b1 with
  | zero => intro b2 c h1; omega
  | succ n ih =>
    intro b2 c h1 h2
    cases b2 with
    | zero => omega
    | succ m =>
      simp only [convertMainLoop]
      split_ifs with h3 h4 h5 h6 h7 h8 h9 h10 h11 h12 <;> try rfl
      · apply ih <;> simp only <;> omega
      · have hd := flushDstSmallBuf_dstNumBytes
          { srcSmallBuf := c.srcSmallBuf,
            dstSmallBuf := dstEncoding.encodePoint 4 (srcEncoding.decodePoint c.srcBuf).point,
            written := c.written, dstNumBytes := c.dstNumBytes,
            srcBuf := List.drop (srcEncoding.decodePoint c.srcBuf).numBytes c.srcBuf,
            didWork := true }
        simp only at hd
        apply ih <;> omega

theorem convertMainLoop_ne_budget (dstEncoding srcEncoding : TextEncoding) (flush : Bool) :
    ∀ (b : Nat) (c : Conv), c.dstNumBytes < b →
      convertMainLoop dstEncoding srcEncoding flush b c ≠ .error .budget := by
  intro b
  induction b with
  | zero => intro c h1; omega
  | succ n ih =>
    intro c h1
    simp only [convertMainLoop]
    split_ifs with h3 h4 h5 h6 h7 h8 h9 h10 h11 h12 <;> try simp
    · apply ih; simp only; omega
    · have hd := flushDstSmallBuf_dstNumBytes
        { srcSmallBuf := c.srcSmallBuf,
          dstSmallBuf := dstEncoding.encodePoint 4 (srcEncoding.decodePoint c.srcBuf).point,
          written := c.written, dstNumBytes := c.dstNumBytes,
          srcBuf := List.drop (srcEncoding.decodePoint c.srcBuf).numBytes c.srcBuf,
          didWork := true }
      simp only at hd
      apply ih; omega


theorem convertCarryLoop_budget (dstEncoding srcEncoding : TextEncoding) (flush : Bool) :
    ∀ (b1 b2 : Nat) (c : Conv), carryMeasure c < b1 → carryMeasure c < b2 →
      convertCarryLoop dstEncoding srcEncoding flush b1 c =
        convertCarryLoop dstEncoding srcEncoding flush b2 c := by
  intro b1
  induction b1 with
  | zero => intro b2 c h1; omega
  | succ n ih =>
    intro b2 c h1 h2
    cases b2 with
    | zero => omega
    | succ m =>
      simp only [convertCarryLoop]
      have hd := flushDstSmallBuf_dstNumBytes c
      unfold carryMeasure at h1 h2
      generalize flushDstSmallBuf c = c1 at hd ⊢
      generalize srcEncoding.decodePoint (c1.srcSmallBuf ++
        List.take (min (4 - c1.srcSmallBuf.length) c1.srcBuf.length) c1.srcBuf) = decoded
      generalize dstEncoding.encodePoint 4 decoded.point = encoded
      generalize (decoded.numBytes + 4294967296 - c1.srcSmallBuf.length) % 4294967296 = ofs
      by_cases h3 : c.dstSmallBuf.length > 0 ∨ c.srcSmallBuf.length > 0
      swap
      · simp only [h3, if_false]
      simp only [h3, if_true]
      by_cases h4 : c1.dstNumBytes = 0
      · simp only [h4, if_true]
      simp only [h4, if_false]
      by_cases h5 : c1.dstSmallBuf.length = 0
      swap
      · simp only [h5, not_false_eq_true, if_true]
      simp only [h5, not_true_eq_false, if_false]
      by_cases h6 : c1.srcSmallBuf.length = 0
      · simp only [h6, if_true]
      simp only [h6, if_false]
      by_cases h7 : decoded.point < 0
      · simp only [h7, if_true]
      simp only [h7, if_false]
      by_cases h8 : decoded.status = Status.Truncated ∧ flush = false
      · simp only [h8, and_self, if_true]
      simp only [h8, if_false]
      by_cases h9 : ofs > c1.srcBuf.length
      · simp only [h9, if_true]
      simp only [h9, if_false]
      by_cases h10 : decoded.numBytes >
          (c1.srcSmallBuf ++
            List.take (min (4 - c1.srcSmallBuf.length) c1.srcBuf.length) c1.srcBuf).length
      · simp only [h10, if_true]
      simp only [h10, if_false]
      by_cases h11 : encoded.length > 0
      swap
      · simp only [h11, not_false_eq_true, if_true]
      simp only [h11, not_true_eq_false, if_false]
      apply ih <;> unfold carryMeasure <;> dsimp only <;> split_ifs at h1 h2 ⊢ <;> omega

theorem convertAfterCarry_ne_budget (dstEncoding srcEncoding : TextEncoding) (flush : Bool)
    (c : Conv) : convertAfterCarry dstEncoding srcEncoding flush c ≠ .error .budget := by
  unfold convertAfterCarry
  split_ifs <;> try simp
  exact convertMainLoop_ne_budget dstEncoding srcEncoding flush _ c (Nat.lt_succ_self _)

theorem convertCarryLoop_succ_cases (dstEncoding srcEncoding : TextEncoding) (flush : Bool)
    (budget : Nat) (c : Conv) :
    let c1 := flushDstSmallBuf c
    let staged := c1.srcSmallBuf ++
      List.take (min (4 - c1.srcSmallBuf.length) c1.srcBuf.length) c1.srcBuf
    let decoded := srcEncoding.decodePoint staged
    let ofs := (decoded.numBytes + 4294967296 - c1.srcSmallBuf.length) % 4294967296
    let encoded := dstEncoding.encodePoint 4 decoded.point
    let loop := convertCarryLoop dstEncoding srcEncoding flush (budget + 1) c
    (¬ (c.dstSmallBuf.length > 0 ∨ c.srcSmallBuf.length > 0) ∧
        loop = convertAfterCarry dstEncoding srcEncoding flush c) ∨
    ((c.dstSmallBuf.length > 0 ∨ c.srcSmallBuf.length > 0) ∧
      ((c1.dstNumBytes = 0 ∧ loop = .ok c1) ∨
       (c1.dstNumBytes ≠ 0 ∧ c1.dstSmallBuf.length = 0 ∧ c1.srcSmallBuf.length = 0 ∧
          loop = convertAfterCarry dstEncoding srcEncoding flush c1) ∨
       (((c1.dstNumBytes ≠ 0 ∧ ¬ c1.dstSmallBuf.length = 0) ∨
          (c1.srcSmallBuf.length ≠ 0 ∧
            (decoded.point < 0 ∨
             (decoded.status = Status.Truncated ∧ flush = false ∧ ¬ staged.length < 4) ∨
             ofs > c1.srcBuf.length ∨
             decoded.numBytes > staged.length ∨
             ¬ encoded.length > 0))) ∧
          ∃ f, f ≠ Fault.budget ∧ loop = .error f) ∨
       (c1.dstNumBytes ≠ 0 ∧ c1.dstSmallBuf.length = 0 ∧ c1.srcSmallBuf.length ≠ 0 ∧
          0 ≤ decoded.point ∧ decoded.status = Status.Truncated ∧ flush = false ∧
          staged.length < 4 ∧ loop = .ok { c1 with srcSmallBuf := staged }) ∨
       (c1.dstNumBytes ≠ 0 ∧ c1.dstSmallBuf.length = 0 ∧ c1.srcSmallBuf.length ≠ 0 ∧
          0 ≤ decoded.point ∧ ¬ (decoded.status = Status.Truncated ∧ flush = false) ∧
          ofs ≤ c1.srcBuf.length ∧ decoded.numBytes ≤ staged.length ∧ 0 < encoded.length ∧
          loop = convertCarryLoop dstEncoding srcEncoding flush budget
            { c1 with
              srcBuf := c1.srcBuf.drop ofs
              srcSmallBuf := popFront staged decoded.numBytes
              didWork := true
              dstSmallBuf := encoded }))) := by
  intro c1 staged decoded ofs encoded loop
  have hloop : loop = convertCarryLoop dstEncoding srcEncoding flush (budget + 1) c := rfl
  simp only [convertCarryLoop] at hloop
  change loop = (if c.dstSmallBuf.length > 0 ∨ c.srcSmallBuf.length > 0 then
      if c1.dstNumBytes = 0 then Except.ok c1
      else if ¬ c1.dstSmallBuf.length = 0 then Except.error (Fault.assertion 40)
      else if c1.srcSmallBuf.length = 0 then
        convertAfterCarry dstEncoding srcEncoding flush c1
      else if decoded.point < 0 then Except.error (Fault.assertion 58)
      else if decoded.status = Status.Truncated ∧ flush = false then
        if ¬ staged.length < 4 then Except.error (Fault.assertion 61)
        else Except.ok { c1 with srcSmallBuf := staged }
      else if ofs > c1.srcBuf.length then Except.error (Fault.outOfRange 66)
      else if decoded.numBytes > staged.length then Except.error (Fault.outOfRange 67)
      else if ¬ encoded.length > 0 then Except.error (Fault.assertion 74)
      else convertCarryLoop dstEncoding srcEncoding flush budget
            { c1 with
              srcBuf := c1.srcBuf.drop ofs
              srcSmallBuf := popFront staged decoded.numBytes
              didWork := true
              dstSmallBuf := encoded }
    else convertAfterCarry dstEncoding srcEncoding flush c) at hloop
  clear_value c1 staged decoded ofs encoded loop
  by_cases h3 : c.dstSmallBuf.length > 0 ∨ c.srcSmallBuf.length > 0
  swap
  · left
    rw [if_neg h3] at hloop
    exact ⟨h3, hloop⟩
  right
  refine ⟨h3, ?_⟩
  rw [if_pos h3] at hloop
  by_cases h4 : c1.dstNumBytes = 0
  · rw [if_pos h4] at hloop
    exact Or.inl ⟨h4, hloop⟩
  rw [if_neg h4] at hloop
  by_cases h5 : c1.dstSmallBuf.length = 0
  swap
  · rw [if_pos h5] at hloop
    exact Or.inr (Or.inr (Or.inl ⟨Or.inl ⟨h4, h5⟩, _, by simp, hloop⟩))
  rw [if_neg (not_not.mpr h5)] at hloop
  by_cases h6 : c1.srcSmallBuf.length = 0
  · rw [if_pos h6] at hloop
    exact Or.inr (Or.inl ⟨h4, h5, h6, hloop⟩)
  rw [if_neg h6] at hloop
  by_cases h7 : decoded.point < 0
  · rw [if_pos h7] at hloop
    exact Or.inr (Or.inr (Or.inl ⟨Or.inr ⟨h6, Or.inl h7⟩, _, by simp, hloop⟩))
  rw [if_neg h7] at hloop
  have h7' : 0 ≤ decoded.point := not_lt.mp h7
  by_cases h8 : decoded.status = Status.Truncated ∧ flush = false
  · rw [if_pos h8] at hloop
    by_cases h9 : staged.length < 4
    · rw [if_neg (not_not.mpr h9)] at hloop
      exact Or.inr (Or.inr (Or.inr (Or.inl ⟨h4, h5, h6, h7', h8.1, h8.2, h9, hloop⟩)))
    · rw [if_pos h9] at hloop
      exact Or.inr (Or.inr (Or.inl ⟨Or.inr ⟨h6, Or.inr (Or.inl ⟨h8.1, h8.2, h9⟩)⟩, _, by simp, hloop⟩))
  rw [if_neg h8] at hloop
  by_cases h9 : ofs > c1.srcBuf.length
  · rw [if_pos h9] at hloop
    exact Or.inr (Or.inr (Or.inl ⟨Or.inr ⟨h6, Or.inr (Or.inr (Or.inl h9))⟩, _, by simp, hloop⟩))
  rw [if_neg h9] at hloop
  by_cases h10 : decoded.numBytes > staged.length
  · rw [if_pos h10] at hloop
    exact Or.inr (Or.inr (Or.inl ⟨Or.inr ⟨h6, Or.inr (Or.inr (Or.inr (Or.inl h10)))⟩, _, by simp, hloop⟩))
  rw [if_neg h10] at hloop
  by_cases h11 : encoded.length > 0
  swap
  · rw [if_pos h11] at hloop
    exact Or.inr (Or.inr (Or.inl ⟨Or.inr ⟨h6, Or.inr (Or.inr (Or.inr (Or.inr h11)))⟩, _, by simp, hloop⟩))
  rw [if_neg (not_not.mpr h11)] at hloop
  exact Or.inr (Or.inr (Or.inr (Or.inr
    ⟨h4, h5, h6, h7', h8, not_lt.mp h9, not_lt.mp h10, h11, hloop⟩)))

theorem convertCarryLoop_ne_budget (dstEncoding srcEncoding : TextEncoding) (flush : Bool) :
    ∀ (b : Nat) (c : Conv), carryMeasure c < b →
      convertCarryLoop dstEncoding srcEncoding flush b c ≠ .error .budget := by
  intro b
  induction b with
  | zero => intro c h1; omega
  | succ n ih =>
    intro c h1
    have hd := flushDstSmallBuf_dstNumBytes c
    unfold carryMeasure at h1
    rcases convertCarryLoop_succ_cases dstEncoding srcEncoding flush n c with
      ⟨-, h⟩ | ⟨h3, ⟨-, h⟩ | ⟨-, -, -, h⟩ | ⟨-, f, hf, h⟩ | ⟨-, -, -, -, -, -, -, h⟩ |
        ⟨h4, h5, h6, -, -, -, -, h11, h⟩⟩
    · rw [h]; exact convertAfterCarry_ne_budget _ _ _ _
    · rw [h]; simp
    · rw [h]; exact convertAfterCarry_ne_budget _ _ _ _
    · rw [h]; simpa using hf
    · rw [h]; simp
    · rw [h]
      apply ih
      unfold carryMeasure; dsimp only; split_ifs at h1 ⊢ <;> omega

/-! ## One pass of each loop, case by case -/

theorem convertMainLoop_succ_cases (dstEncoding srcEncoding : TextEncoding) (flush : Bool)
    (budget : Nat) (c : Conv) :
    let decoded := srcEncoding.decodePoint c.srcBuf
    let direct := dstEncoding.encodePoint c.dstNumBytes decoded.point
    let small := dstEncoding.encodePoint 4 decoded.point
    let rest := c.srcBuf.drop decoded.numBytes
    let c2 := flushDstSmallBuf
      { c with didWork := true, srcBuf := rest, dstSmallBuf := small }
    let loop := convertMainLoop dstEncoding srcEncoding flush (budget + 1) c
    (c.srcBuf.length = 0 ∧ loop = .ok c) ∨
    (0 < c.srcBuf.length ∧
      (((decoded.point < 0 ∨
          (decoded.status = Status.Truncated ∧ flush = false ∧ ¬ c.srcBuf.length < 4) ∨
          decoded.numBytes > c.srcBuf.length ∨
          (4 ≤ c.dstNumBytes ∧ ¬ direct.length > 0) ∨
          (4 ≤ c.dstNumBytes ∧ direct.length > c.dstNumBytes) ∨
          (c.dstNumBytes < 4 ∧ ¬ small.length > 0)) ∧
          ∃ f, f ≠ Fault.budget ∧ loop = .error f) ∨
       (0 ≤ decoded.point ∧ decoded.status = Status.Truncated ∧ flush = false ∧
          c.srcBuf.length < 4 ∧
          loop = .ok { c with didWork := true, srcSmallBuf := c.srcBuf, srcBuf := [] }) ∨
       (0 ≤ decoded.point ∧ ¬ (decoded.status = Status.Truncated ∧ flush = false) ∧
          decoded.numBytes ≤ c.srcBuf.length ∧ 4 ≤ c.dstNumBytes ∧ 0 < direct.length ∧
          direct.length ≤ c.dstNumBytes ∧
          loop = convertMainLoop dstEncoding srcEncoding flush budget
            { c with didWork := true, srcBuf := rest, written := c.written ++ direct,
                     dstNumBytes := c.dstNumBytes - direct.length }) ∨
       (0 ≤ decoded.point ∧ ¬ (decoded.status = Status.Truncated ∧ flush = false) ∧
          decoded.numBytes ≤ c.srcBuf.length ∧ c.dstNumBytes < 4 ∧ 0 < small.length ∧
          c2.dstNumBytes = 0 ∧ loop = .ok c2) ∨
       (0 ≤ decoded.point ∧ ¬ (decoded.status = Status.Truncated ∧ flush = false) ∧
          decoded.numBytes ≤ c.srcBuf.length ∧ c.dstNumBytes < 4 ∧ 0 < small.length ∧
          c2.dstNumBytes ≠ 0 ∧
          loop = convertMainLoop dstEncoding srcEncoding flush budget c2))) := by
  intro decoded direct small rest c2 loop
  have hloop : loop = convertMainLoop dstEncoding srcEncoding flush (budget + 1) c := rfl
  simp only [convertMainLoop] at hloop
  change loop = (if c.srcBuf.length > 0 then
      if decoded.point < 0 then Except.error (Fault.assertion 88)
      else if decoded.status = Status.Truncated ∧ flush = false then
        if ¬ c.srcBuf.length < 4 then Except.error (Fault.assertion 93)
        else Except.ok { c with didWork := true, srcSmallBuf := c.srcBuf, srcBuf := [] }
      else if decoded.numBytes > c.srcBuf.length then Except.error (Fault.outOfRange 101)
      else if c.dstNumBytes ≥ 4 then
        if ¬ direct.length > 0 then Except.error (Fault.assertion 106)
        else if direct.length > c.dstNumBytes then Except.error (Fault.outOfRange 107)
        else convertMainLoop dstEncoding srcEncoding flush budget
            { c with didWork := true, srcBuf := rest, written := c.written ++ direct,
                     dstNumBytes := c.dstNumBytes - direct.length }
      else if ¬ small.length > 0 then Except.error (Fault.assertion 113)
      else if c2.dstNumBytes = 0 then Except.ok c2
      else convertMainLoop dstEncoding srcEncoding flush budget c2
    else Except.ok c) at hloop
  clear_value decoded direct small rest c2 loop
  by_cases h3 : c.srcBuf.length > 0
  swap
  · left
    rw [if_neg h3] at hloop
    exact ⟨by omega, hloop⟩
  right
  refine ⟨h3, ?_⟩
  rw [if_pos h3] at hloop
  by_cases h7 : decoded.point < 0
  · rw [if_pos h7] at hloop
    exact Or.inl ⟨Or.inl h7, _, by simp, hloop⟩
  rw [if_neg h7] at hloop
  have h7' : 0 ≤ decoded.point := not_lt.mp h7
  by_cases h8 : decoded.status = Status.Truncated ∧ flush = false
  · rw [if_pos h8] at hloop
    by_cases h9 : c.srcBuf.length < 4
    · rw [if_neg (not_not.mpr h9)] at hloop
      exact Or.inr (Or.inl ⟨h7', h8.1, h8.2, h9, hloop⟩)
    · rw [if_pos h9] at hloop
      exact Or.inl ⟨Or.inr (Or.inl ⟨h8.1, h8.2, h9⟩), _, by simp, hloop⟩
  rw [if_neg h8] at hloop
  by_cases h9 : decoded.numBytes > c.srcBuf.length
  · rw [if_pos h9] at hloop
    exact Or.inl ⟨Or.inr (Or.inr (Or.inl h9)), _, by simp, hloop⟩
  rw [if_neg h9] at hloop
  by_cases h10 : c.dstNumBytes ≥ 4
  · rw [if_pos h10] at hloop
    by_cases h11 : direct.length > 0
    swap
    · rw [if_pos h11] at hloop
      exact Or.inl ⟨Or.inr (Or.inr (Or.inr (Or.inl ⟨h10, h11⟩))), _, by simp, hloop⟩
    rw [if_neg (not_not.mpr h11)] at hloop
    by_cases h12 : direct.length > c.dstNumBytes
    · rw [if_pos h12] at hloop
      exact Or.inl ⟨Or.inr (Or.inr (Or.inr (Or.inr (Or.inl ⟨h10, h12⟩)))), _, by simp, hloop⟩
    rw [if_neg h12] at hloop
    exact Or.inr (Or.inr (Or.inl ⟨h7', h8, not_lt.mp h9, h10, h11, not_lt.mp h12, hloop⟩))
  rw [if_neg h10] at hloop
  by_cases h11 : small.length > 0
  swap
  · rw [if_pos h11] at hloop
    exact Or.inl ⟨Or.inr (Or.inr (Or.inr (Or.inr (Or.inr ⟨not_le.mp h10, h11⟩)))), _, by simp, hloop⟩
  rw [if_neg (not_not.mpr h11)] at hloop
  by_cases h12 : c2.dstNumBytes = 0
  · rw [if_pos h12] at hloop
    exact Or.inr (Or.inr (Or.inr (Or.inl
      ⟨h7', h8, not_lt.mp h9, not_le.mp h10, h11, h12, hloop⟩)))
  rw [if_neg h12] at hloop
  exact Or.inr (Or.inr (Or.inr (Or.inr
    ⟨h7', h8, not_lt.mp h9, not_le.mp h10, h11, h12, hloop⟩)))

/-! ## Invariants of the two loops -/

theorem convertMainLoop_dstSmallBuf (dstEncoding srcEncoding : TextEncoding) (flush : Bool) :
    ∀ (b : Nat) (c r : Conv), c.dstSmallBuf = [] →
      convertMainLoop dstEncoding srcEncoding flush b c = .ok r →
      r.dstSmallBuf = [] ∨ r.dstNumBytes = 0 := by
  intro b
  induction b with
  | zero => intro c r _ h; simp [convertMainLoop] at h
  | succ n ih =>
    intro c r h0 h
    rcases convertMainLoop_succ_cases dstEncoding srcEncoding flush n c with
      ⟨-, e⟩ | ⟨-, ⟨-, f, -, e⟩ | ⟨-, -, -, -, e⟩ | ⟨-, -, -, -, -, -, e⟩ |
        ⟨-, -, -, -, -, hz, e⟩ | ⟨-, -, -, -, -, hz, e⟩⟩
    · rw [e] at h; cases h; exact Or.inl h0
    · rw [e] at h; cases h
    · rw [e] at h; cases h; exact Or.inl h0
    · rw [e] at h; exact ih _ r (by exact h0) h
    · rw [e] at h; cases h; exact Or.inr hz
    · rw [e] at h
      refine ih _ r ?_ h
      rw [flushDstSmallBuf_dstNumBytes] at hz
      rw [flushDstSmallBuf_dstSmallBuf]
      apply List.drop_of_length_le
      dsimp only at hz ⊢
      omega

theorem convertAfterCarry_dstSmallBuf (dstEncoding srcEncoding : TextEncoding) (flush : Bool)
    (c r : Conv) (h : convertAfterCarry dstEncoding srcEncoding flush c = .ok r) :
    r.dstSmallBuf = [] ∨ r.dstNumBytes = 0 := by
  unfold convertAfterCarry at h
  split_ifs at h with h1 h2 h3
  exact convertMainLoop_dstSmallBuf _ _ _ _ c r (List.length_eq_zero.mp h2) h

theorem convertCarryLoop_dstSmallBuf (dstEncoding srcEncoding : TextEncoding) (flush : Bool) :
    ∀ (b : Nat) (c r : Conv),
      convertCarryLoop dstEncoding srcEncoding flush b c = .ok r →
      r.dstSmallBuf = [] ∨ r.dstNumBytes = 0 := by
  intro b
  induction b with
  | zero => intro c r h; simp [convertCarryLoop] at h
  | succ n ih =>
    intro c r h
    rcases convertCarryLoop_succ_cases dstEncoding srcEncoding flush n c with
      ⟨-, e⟩ | ⟨-, ⟨hz, e⟩ | ⟨-, -, -, e⟩ | ⟨-, f, -, e⟩ | ⟨-, h5, -, -, -, -, -, e⟩ |
        ⟨-, -, -, -, -, -, -, -, e⟩⟩
    · rw [e] at h; exact convertAfterCarry_dstSmallBuf _ _ _ _ r h
    · rw [e] at h; cases h; exact Or.inr hz
    · rw [e] at h; exact convertAfterCarry_dstSmallBuf _ _ _ _ r h
    · rw [e] at h; cases h
    · rw [e] at h; cases h; exact Or.inl (List.length_eq_zero.mp h5)
    · rw [e] at h; exact ih _ r h

theorem convertMainLoop_srcSmallBuf (dstEncoding srcEncoding : TextEncoding) (flush : Bool) :
    ∀ (b : Nat) (c r : Conv), c.srcSmallBuf.length < 4 →
      convertMainLoop dstEncoding srcEncoding flush b c = .ok r →
      r.srcSmallBuf.length < 4 := by
  intro b
  induction b with
  | zero => intro c r _ h; simp [convertMainLoop] at h
  | succ n ih =>
    intro c r h0 h
    rcases convertMainLoop_succ_cases dstEncoding srcEncoding flush n c with
      ⟨-, e⟩ | ⟨-, ⟨-, f, -, e⟩ | ⟨-, -, -, h4, e⟩ | ⟨-, -, -, -, -, -, e⟩ |
        ⟨-, -, -, -, -, hz, e⟩ | ⟨-, -, -, -, -, hz, e⟩⟩
    · rw [e] at h; cases h; exact h0
    · rw [e] at h; cases h
    · rw [e] at h; cases h; exact h4
    · rw [e] at h; exact ih _ r (by exact h0) h
    · rw [e] at h; cases h; rw [flushDstSmallBuf_srcSmallBuf]; exact h0
    · rw [e] at h
      refine ih _ r ?_ h
      rw [flushDstSmallBuf_srcSmallBuf]; exact h0

theorem convertCarryLoop_srcSmallBuf (dstEncoding srcEncoding : TextEncoding) (flush : Bool)
    (hpos : ∀ view, view ≠ [] → 1 ≤ (srcEncoding.decodePoint view).numBytes) :
    ∀ (b : Nat) (c r : Conv), c.srcSmallBuf.length < 4 →
      convertCarryLoop dstEncoding srcEncoding flush b c = .ok r →
      r.srcSmallBuf.length < 4 := by
  intro b
  induction b with
  | zero => intro c r _ h; simp [convertCarryLoop] at h
  | succ n ih =>
    intro c r h0 h
    have hs := flushDstSmallBuf_srcSmallBuf c
    rcases convertCarryLoop_succ_cases dstEncoding srcEncoding flush n c with
      ⟨-, e⟩ | ⟨-, ⟨hz, e⟩ | ⟨-, -, h6, e⟩ | ⟨-, f, -, e⟩ | ⟨-, -, -, -, -, -, h9, e⟩ |
        ⟨-, -, h6, -, -, -, -, -, e⟩⟩
    · rw [e] at h
      unfold convertAfterCarry at h
      split_ifs at h
      exact convertMainLoop_srcSmallBuf _ _ _ _ c r h0 h
    · rw [e] at h; cases h; rw [hs]; exact h0
    · rw [e] at h
      unfold convertAfterCarry at h
      split_ifs at h
      exact convertMainLoop_srcSmallBuf _ _ _ _ _ r (by rw [hs]; exact h0) h
    · rw [e] at h; cases h
    · rw [e] at h; cases h; exact h9
    · rw [e] at h
      refine ih _ r ?_ h
      have hne : (flushDstSmallBuf c).srcSmallBuf ++
          List.take (min (4 - (flushDstSmallBuf c).srcSmallBuf.length)
            (flushDstSmallBuf c).srcBuf.length) (flushDstSmallBuf c).srcBuf ≠ [] := by
        intro hnil
        rw [List.append_eq_nil] at hnil
        exact h6 (by rw [hnil.1]; rfl)
      have hn := hpos _ hne
      dsimp only [popFront]
      rw [List.length_drop, List.length_append, List.length_take]
      rw [hs] at hn ⊢
      omega

/-! ## The reference transcoding -/

theorem decodeAll_budget (srcEncoding : TextEncoding)
    (hpos : ∀ view, view ≠ [] → 1 ≤ (srcEncoding.decodePoint view).numBytes) :
    ∀ (n m : Nat) (src : List Nat), src.length ≤ n → src.length ≤ m →
      decodeAll srcEncoding n src = decodeAll srcEncoding m src := by
  intro n
  induction n with
  | zero =>
    intro m src h1 _
    have hs : src = [] := List.length_eq_zero.mp (by omega)
    subst hs
    cases m <;> simp [decodeAll]
  | succ n ih =>
    intro m src h1 h2
    cases m with
    | zero =>
      have hs : src = [] := List.length_eq_zero.mp (by omega)
      subst hs
      simp [decodeAll]
    | succ m =>
      simp only [decodeAll]
      by_cases hs : src = []
      · simp [hs]
      · rw [if_neg hs, if_neg hs]
        congr 1
        have h3 := hpos src hs
        have h4 := List.length_pos.mpr hs
        apply ih <;> rw [List.length_drop] <;> omega

theorem codePoints_cons (srcEncoding : TextEncoding)
    (hpos : ∀ view, view ≠ [] → 1 ≤ (srcEncoding.decodePoint view).numBytes)
    (src : List Nat) (hs : src ≠ []) :
    codePoints srcEncoding src =
      (srcEncoding.decodePoint src).point ::
        codePoints srcEncoding (src.drop (srcEncoding.decodePoint src).numBytes) := by
  unfold codePoints
  have h4 := List.length_pos.mpr hs
  have h3 := hpos src hs
  obtain ⟨k, hk⟩ : ∃ k, src.length = k + 1 := ⟨src.length - 1, by omega⟩
  rw [hk]
  simp only [decodeAll]
  rw [if_neg hs]
  congr 1
  apply decodeAll_budget srcEncoding hpos
  · rw [List.length_drop]; omega
  · omega

theorem reference_nil (dstEncoding srcEncoding : TextEncoding) :
    reference dstEncoding srcEncoding [] = [] := by
  simp [reference, codePoints, decodeAll]

theorem reference_cons (dstEncoding srcEncoding : TextEncoding)
    (hpos : ∀ view, view ≠ [] → 1 ≤ (srcEncoding.decodePoint view).numBytes)
    (src : List Nat) (hs : src ≠ []) :
    reference dstEncoding srcEncoding src =
      dstEncoding.encodePoint 4 (srcEncoding.decodePoint src).point ++
        reference dstEncoding srcEncoding
          (src.drop (srcEncoding.decodePoint src).numBytes) := by
  unfold reference
  rw [codePoints_cons srcEncoding hpos src hs]
  simp

/-- Induction along the decoding of a source: from what is left after one decode to the
source itself. -/
theorem decode_induction (srcEncoding : TextEncoding)
    (hpos : ∀ view, view ≠ [] → 1 ≤ (srcEncoding.decodePoint view).numBytes)
    (P : List Nat → Prop) (hnil : P [])
    (hstep : ∀ src, src ≠ [] → P (src.drop (srcEncoding.decodePoint src).numBytes) → P src) :
    ∀ src, P src := by
  have key : ∀ (n : Nat) (src : List Nat), src.length ≤ n → P src := by
    intro n
    induction n with
    | zero =>
      intro src h
      have hs : src = [] := List.length_eq_zero.mp (by omega)
      rw [hs]; exact hnil
    | succ n ih =>
      intro src h
      by_cases hs : src = []
      · rw [hs]; exact hnil
      · apply hstep src hs
        have h3 := hpos src hs
        have h4 := List.length_pos.mpr hs
        exact ih _ (by rw [List.length_drop]; omega)
  exact fun src => key src.length src (le_refl _)

theorem reference_length_le (dstEncoding srcEncoding : TextEncoding)
    (hwb : WellBehaved dstEncoding srcEncoding) (src : List Nat) :
    (reference dstEncoding srcEncoding src).length ≤ 4 * (codePoints srcEncoding src).length := by
  refine decode_induction srcEncoding hwb.numBytes_pos
    (fun src => (reference dstEncoding srcEncoding src).length ≤
      4 * (codePoints srcEncoding src).length) ?_ ?_ src
  · simp [reference_nil, codePoints, decodeAll]
  · intro src hs ih
    rw [reference_cons dstEncoding srcEncoding hwb.numBytes_pos src hs,
      codePoints_cons srcEncoding hwb.numBytes_pos src hs]
    have h1 := hwb.encode_le 4 _ (le_refl 4) (hwb.point_nonneg src hs)
    simp only [List.length_append, List.length_cons]
    omega

theorem reference_eq_nil (dstEncoding srcEncoding : TextEncoding)
    (hwb : WellBehaved dstEncoding srcEncoding) (src : List Nat)
    (h : reference dstEncoding srcEncoding src = []) : src = [] := by
  by_contra hs
  rw [reference_cons dstEncoding srcEncoding hwb.numBytes_pos src hs] at h
  have h1 := hwb.encode_pos 4 _ (le_refl 4) (hwb.point_nonneg src hs)
  rw [List.append_eq_nil] at h
  rw [h.1] at h1
  simp at h1

/-! ## What a call with `flush = true` writes -/

theorem convertMainLoop_flush (dstEncoding srcEncoding : TextEncoding)
    (hwb : WellBehaved dstEncoding srcEncoding) :
    ∀ (b : Nat) (c : Conv), c.dstNumBytes < b → c.dstSmallBuf = [] →
      ∃ r, convertMainLoop dstEncoding srcEncoding true b c = .ok r ∧
        r.written = c.written ++
          (reference dstEncoding srcEncoding c.srcBuf).take c.dstNumBytes ∧
        r.dstSmallBuf ++ reference dstEncoding srcEncoding r.srcBuf =
          (reference dstEncoding srcEncoding c.srcBuf).drop c.dstNumBytes ∧
        r.dstNumBytes = c.dstNumBytes - (reference dstEncoding srcEncoding c.srcBuf).length ∧
        r.srcSmallBuf = c.srcSmallBuf ∧
        r.didWork = (c.didWork || decide (c.srcBuf ≠ [])) := by
  intro b
  induction b with
  | zero => intro c h; omega
  | succ n ih =>
    intro c hb h0
    rcases convertMainLoop_succ_cases dstEncoding srcEncoding true n c with
      ⟨hs, e⟩ | ⟨hs, ⟨hr, -⟩ | ⟨-, -, hf, -⟩ | ⟨hp, -, hn, hd, hl, hle, e⟩ |
        ⟨hp, -, hn, hd, hl, hz, e⟩ | ⟨hp, -, hn, hd, hl, hz, e⟩⟩
    · have hs' : c.srcBuf = [] := List.length_eq_zero.mp hs
      refine ⟨c, e, ?_, ?_, ?_, rfl, ?_⟩
      · rw [hs', reference_nil]; simp
      · rw [hs', reference_nil]; simp [h0]
      · rw [hs', reference_nil]; simp
      · rw [hs']; simp
    · exfalso
      have hne : c.srcBuf ≠ [] := List.length_pos.mp hs
      have h1 := hwb.point_nonneg _ hne
      have h2 := hwb.numBytes_le _ hne
      rcases hr with h | ⟨-, h, -⟩ | h | ⟨h4, h⟩ | ⟨h4, h⟩ | ⟨h4, h⟩
      · omega
      · cases h
      · have := Nat.min_le_right 4 c.srcBuf.length
        omega
      · exact h (hwb.encode_pos _ _ h4 h1)
      · have := hwb.encode_le _ _ h4 h1
        omega
      · exact h (hwb.encode_pos _ _ (le_refl 4) h1)
    · cases hf
    · have hne : c.srcBuf ≠ [] := List.length_pos.mp hs
      have hroom := hwb.encode_room _ _ hd hp
      rw [hroom] at hl hle e
      obtain ⟨r, hr, h1, h2, h3, h4, h5⟩ := ih
        { c with didWork := true,
                 srcBuf := c.srcBuf.drop (srcEncoding.decodePoint c.srcBuf).numBytes,
                 written := c.written ++ dstEncoding.encodePoint 4
                   (srcEncoding.decodePoint c.srcBuf).point,
                 dstNumBytes := c.dstNumBytes - (dstEncoding.encodePoint 4
                   (srcEncoding.decodePoint c.srcBuf).point).length }
        (by dsimp only; omega) h0
      dsimp only at h1 h2 h3 h4 h5
      refine ⟨r, e.trans hr, ?_, ?_, ?_, h4, ?_⟩
      · rw [h1, reference_cons dstEncoding srcEncoding hwb.numBytes_pos _ hne,
          List.take_append_eq_append_take, List.take_of_length_le hle]
        simp
      · rw [h2, reference_cons dstEncoding srcEncoding hwb.numBytes_pos _ hne,
          List.drop_append_eq_append_drop, List.drop_of_length_le hle]
        simp
      · rw [h3, reference_cons dstEncoding srcEncoding hwb.numBytes_pos _ hne]
        simp only [List.length_append]
        omega
      · rw [h5]; simp [hne]
    · have hne : c.srcBuf ≠ [] := List.length_pos.mp hs
      rw [flushDstSmallBuf_dstNumBytes] at hz
      dsimp only at hz
      refine ⟨_, e, ?_, ?_, ?_, ?_, ?_⟩
      · rw [flushDstSmallBuf_written, reference_cons dstEncoding srcEncoding hwb.numBytes_pos _ hne,
          List.take_append_eq_append_take]
        have : c.dstNumBytes - (dstEncoding.encodePoint 4
            (srcEncoding.decodePoint c.srcBuf).point).length = 0 := hz
        rw [this]
        simp
      · rw [flushDstSmallBuf_dstSmallBuf, flushDstSmallBuf_srcBuf,
          reference_cons dstEncoding srcEncoding hwb.numBytes_pos c.srcBuf hne,
          List.drop_append_eq_append_drop]
        have : c.dstNumBytes - (dstEncoding.encodePoint 4
            (srcEncoding.decodePoint c.srcBuf).point).length = 0 := hz
        rw [this]
        simp
      · rw [flushDstSmallBuf_dstNumBytes,
          reference_cons dstEncoding srcEncoding hwb.numBytes_pos c.srcBuf hne]
        simp only [List.length_append]
        omega
      · rw [flushDstSmallBuf_srcSmallBuf]
      · rw [flushDstSmallBuf_eq]
        simp [hne]
    · have hne : c.srcBuf ≠ [] := List.length_pos.mp hs
      have hz' := hz
      rw [flushDstSmallBuf_dstNumBytes] at hz'
      dsimp only at hz'
      have hle : (dstEncoding.encodePoint 4 (srcEncoding.decodePoint c.srcBuf).point).length ≤
          c.dstNumBytes := by omega
      obtain ⟨r, hr, h1, h2, h3, h4, h5⟩ := ih
        (flushDstSmallBuf
          { c with didWork := true,
                   srcBuf := c.srcBuf.drop (srcEncoding.decodePoint c.srcBuf).numBytes,
                   dstSmallBuf := dstEncoding.encodePoint 4
                     (srcEncoding.decodePoint c.srcBuf).point })
        (by rw [flushDstSmallBuf_dstNumBytes]; dsimp only; omega)
        (by rw [flushDstSmallBuf_dstSmallBuf]; exact List.drop_of_length_le hle)
      rw [flushDstSmallBuf_written, flushDstSmallBuf_srcBuf, flushDstSmallBuf_dstNumBytes] at h1
      rw [flushDstSmallBuf_srcBuf, flushDstSmallBuf_dstNumBytes] at h2 h3
      rw [flushDstSmallBuf_srcSmallBuf] at h4
      rw [flushDstSmallBuf_eq] at h5
      dsimp only at h1 h2 h3 h4 h5
      refine ⟨r, e.trans hr, ?_, ?_, ?_, h4, ?_⟩
      · rw [h1, reference_cons dstEncoding srcEncoding hwb.numBytes_pos _ hne,
          List.take_append_eq_append_take, List.take_of_length_le hle]
        simp
      · rw [h2, reference_cons dstEncoding srcEncoding hwb.numBytes_pos _ hne,
          List.drop_append_eq_append_drop, List.drop_of_length_le hle]
        simp
      · rw [h3, reference_cons dstEncoding srcEncoding hwb.numBytes_pos _ hne]
        simp only [List.length_append]
        omega
      · rw [h5]; simp [hne]

theorem convertAfterCarry_flush (dstEncoding srcEncoding : TextEncoding)
    (hwb : WellBehaved dstEncoding srcEncoding) (c : Conv)
    (hd : 0 < c.dstNumBytes) (h0 : c.dstSmallBuf = []) (h1 : c.srcSmallBuf = []) :
    ∃ r, convertAfterCarry dstEncoding srcEncoding true c = .ok r ∧
      r.written = c.written ++
        (reference dstEncoding srcEncoding c.srcBuf).take c.dstNumBytes ∧
      r.dstSmallBuf ++ reference dstEncoding srcEncoding r.srcBuf =
        (reference dstEncoding srcEncoding c.srcBuf).drop c.dstNumBytes ∧
      r.dstNumBytes = c.dstNumBytes - (reference dstEncoding srcEncoding c.srcBuf).length ∧
      r.srcSmallBuf = [] ∧
      r.didWork = (c.didWork || decide (c.srcBuf ≠ [])) := by
  unfold convertAfterCarry
  rw [if_neg (not_not.mpr hd), if_neg (not_not.mpr (by rw [h0]; rfl)),
    if_neg (not_not.mpr (by rw [h1]; rfl))]
  obtain ⟨r, hr, e1, e2, e3, e4, e5⟩ :=
    convertMainLoop_flush dstEncoding srcEncoding hwb (c.dstNumBytes + 1) c
      (Nat.lt_succ_self _) h0
  exact ⟨r, hr, e1, e2, e3, e4.trans h1, e5⟩

/-- With `flush = true` and nothing in `srcSmallBuf`, a call writes the first
`dstNumBytes` bytes of what is pending (the bytes in `dstSmallBuf`, then the reference
transcoding of the source) and leaves the rest pending. -/
theorem convert_flush (dstEncoding srcEncoding : TextEncoding)
    (hwb : WellBehaved dstEncoding srcEncoding) (self : TextConverter) (dstNumBytes : Nat)
    (srcBuf : List Nat) (hsrc : self.srcSmallBuf = [])
    (hd : 0 < dstNumBytes ∨ self.dstSmallBuf ≠ []) :
    ∃ r, convert dstEncoding srcEncoding self dstNumBytes srcBuf true = .ok r ∧
      r.written =
        (self.dstSmallBuf ++ reference dstEncoding srcEncoding srcBuf).take dstNumBytes ∧
      r.dstSmallBuf ++ reference dstEncoding srcEncoding r.srcBuf =
        (self.dstSmallBuf ++ reference dstEncoding srcEncoding srcBuf).drop dstNumBytes ∧
      r.dstNumBytes =
        dstNumBytes - (self.dstSmallBuf ++ reference dstEncoding srcEncoding srcBuf).length ∧
      r.srcSmallBuf = [] ∧
      (r.didWork = true ↔ (0 < dstNumBytes ∧ (self.dstSmallBuf ≠ [] ∨ srcBuf ≠ []))) := by
  unfold convert
  rw [show 2 * dstNumBytes + 2 = (2 * dstNumBytes + 1) + 1 from rfl]
  have hflush := flushDstSmallBuf_eq (Conv.enter self dstNumBytes srcBuf)
  rcases convertCarryLoop_succ_cases dstEncoding srcEncoding true (2 * dstNumBytes + 1)
      (Conv.enter self dstNumBytes srcBuf) with
    ⟨hc, e⟩ | ⟨hc, ⟨hz, e⟩ | ⟨hz, h5, h6, e⟩ | ⟨hr, -⟩ | ⟨-, -, h6, -⟩ |
      ⟨-, -, h6, -⟩⟩
  · -- both small buffers are empty
    simp only [Conv.enter, hsrc, List.length_nil, gt_iff_lt, lt_self_iff_false, or_false,
      not_lt, Nat.le_zero, List.length_eq_zero] at hc
    have hpos : 0 < dstNumBytes := by
      rcases hd with h | h
      · exact h
      · exact absurd hc h
    obtain ⟨r, hr, e1, e2, e3, e4, e5⟩ := convertAfterCarry_flush dstEncoding srcEncoding hwb
      (Conv.enter self dstNumBytes srcBuf) hpos hc hsrc
    simp only [Conv.enter] at e1 e2 e3 e5
    refine ⟨r, e.trans hr, ?_, ?_, ?_, e4, ?_⟩
    · rw [e1, hc]; simp
    · rw [e2, hc]; simp
    · rw [e3, hc]; simp
    · rw [e5, hc]; simp [hpos]
  · -- the window is full once `dstSmallBuf` has been copied
    rw [hflush] at hz e
    simp only [Conv.enter] at hz e hc
    refine ⟨_, e, ?_, ?_, ?_, hsrc, ?_⟩
    · simp only [List.nil_append]
      rw [List.take_append_eq_append_take, hz]; simp
    · simp only
      rw [List.drop_append_eq_append_drop, hz]; simp
    · simp only [List.length_append]; omega
    · simp only [hsrc, List.length_nil, gt_iff_lt, lt_self_iff_false, or_false] at hc
      have hne : self.dstSmallBuf ≠ [] := List.length_pos.mp hc
      simp [hc, hne]
  · -- `dstSmallBuf` has been copied whole and the window has room left
    rw [hflush] at hz h5 e
    simp only [Conv.enter] at hz h5 e hc
    have hlt : self.dstSmallBuf.length < dstNumBytes := by omega
    have hle : self.dstSmallBuf.length ≤ dstNumBytes := by omega
    obtain ⟨r, hr, e1, e2, e3, e4, e5⟩ := convertAfterCarry_flush dstEncoding srcEncoding hwb
      { srcSmallBuf := self.srcSmallBuf,
        dstSmallBuf := List.drop dstNumBytes self.dstSmallBuf,
        written := [] ++ List.take dstNumBytes self.dstSmallBuf,
        dstNumBytes := dstNumBytes - self.dstSmallBuf.length, srcBuf := srcBuf,
        didWork := false || (decide (0 < self.dstSmallBuf.length) && decide (0 < dstNumBytes)) }
      (by dsimp only; omega) (List.drop_of_length_le hle) hsrc
    dsimp only at e1 e2 e3 e5
    refine ⟨r, e.trans hr, ?_, ?_, ?_, e4, ?_⟩
    · rw [e1, List.take_append_eq_append_take, List.take_of_length_le hle]; simp
    · rw [e2, List.drop_append_eq_append_drop, List.drop_of_length_le hle]; simp
    · rw [e3]; simp only [List.length_append]; omega
    · rw [e5]
      simp only [hsrc, List.length_nil, gt_iff_lt, lt_self_iff_false, or_false] at hc
      have hne : self.dstSmallBuf ≠ [] := List.length_pos.mp hc
      have hpos : 0 < dstNumBytes := by omega
      simp [hc, hne, hpos]
  · exfalso
    rw [hflush] at hr
    simp only [Conv.enter, hsrc, List.length_nil] at hr
    rcases hr with ⟨h1, h2⟩ | ⟨h1, -⟩
    · apply h2
      rw [List.length_drop]
      omega
    · exact h1 rfl
  · exfalso
    rw [flushDstSmallBuf_srcSmallBuf] at h6
    simp [Conv.enter, hsrc] at h6
  · exfalso
    rw [flushDstSmallBuf_srcSmallBuf] at h6
    simp [Conv.enter, hsrc] at h6

/-! ## Drivers that call `convert` once per destination window -/

theorem writeTo_flush (dstEncoding srcEncoding : TextEncoding)
    (hwb : WellBehaved dstEncoding srcEncoding) :
    ∀ (outs : List Nat) (self : TextConverter) (srcBuf : List Nat),
      self.srcSmallBuf = [] → (∀ w ∈ outs, 0 < w) →
      ∃ t, writeTo dstEncoding srcEncoding true outs self srcBuf = .ok t ∧
        t.committed =
          (self.dstSmallBuf ++ reference dstEncoding srcEncoding srcBuf).take outs.sum := by
  intro outs
  induction outs with
  | nil => intro self srcBuf _ _; exact ⟨_, rfl, by simp⟩
  | cons w ws ih =>
    intro self srcBuf hsrc hpos
    have hw : 0 < w := hpos w (List.mem_cons_self _ _)
    obtain ⟨r, hr, e1, e2, -, e4, e5⟩ :=
      convert_flush dstEncoding srcEncoding hwb self w srcBuf hsrc (Or.inl hw)
    simp only [writeTo, hr]
    by_cases hdw : r.didWork = false
    · rw [if_pos hdw]
      refine ⟨_, rfl, ?_⟩
      have hnone : ¬ (0 < w ∧ (self.dstSmallBuf ≠ [] ∨ srcBuf ≠ [])) := by
        intro h
        rw [e5.mpr h] at hdw
        cases hdw
      have h1 : self.dstSmallBuf = [] := by
        by_contra h; exact hnone ⟨hw, Or.inl h⟩
      have h2 : srcBuf = [] := by
        by_contra h; exact hnone ⟨hw, Or.inr h⟩
      simp only [e1, h1, h2, reference_nil]
      simp
    · rw [if_neg hdw]
      obtain ⟨t, ht, e6⟩ := ih r.converter r.srcBuf e4
        (fun v hv => hpos v (List.mem_cons_of_mem _ hv))
      rw [ht]
      refine ⟨_, rfl, ?_⟩
      simp only [Conv.converter] at e6
      simp only [e1, e6, e2, List.sum_cons]
      rw [List.take_add]

theorem convertInto_flush (dstEncoding srcEncoding : TextEncoding)
    (hwb : WellBehaved dstEncoding srcEncoding) :
    ∀ (windows : List Nat) (self : TextConverter) (srcBuf : List Nat),
      self.srcSmallBuf = [] → (∀ w ∈ windows, 0 < w) →
      ∃ out self' srcBuf',
        convertInto dstEncoding srcEncoding windows self srcBuf = .ok (out, self', srcBuf') ∧
        out = (self.dstSmallBuf ++ reference dstEncoding srcEncoding srcBuf).take windows.sum ∧
        self'.dstSmallBuf ++ reference dstEncoding srcEncoding srcBuf' =
          (self.dstSmallBuf ++ reference dstEncoding srcEncoding srcBuf).drop windows.sum ∧
        self'.srcSmallBuf = [] := by
  intro windows
  induction windows with
  | nil => intro self srcBuf hsrc _; exact ⟨_, _, _, rfl, by simp, by simp, hsrc⟩
  | cons w ws ih =>
    intro self srcBuf hsrc hpos
    have hw : 0 < w := hpos w (List.mem_cons_self _ _)
    simp only [convertInto]
    by_cases hdone : srcBuf = [] ∧ self.dstSmallBuf = []
    · rw [if_pos hdone]
      refine ⟨_, _, _, rfl, ?_, ?_, hsrc⟩
      · simp [hdone.1, hdone.2, reference_nil]
      · simp [hdone.1, hdone.2, reference_nil]
    · rw [if_neg hdone]
      obtain ⟨r, hr, e1, e2, -, e4, -⟩ :=
        convert_flush dstEncoding srcEncoding hwb self w srcBuf hsrc (Or.inl hw)
      obtain ⟨out, self', srcBuf', ht, e6, e7, e8⟩ := ih r.converter r.srcBuf e4
        (fun v hv => hpos v (List.mem_cons_of_mem _ hv))
      simp only [hr, ht]
      refine ⟨_, _, _, rfl, ?_, ?_, e8⟩
      · simp only [Conv.converter] at e6
        rw [e6, e1, e2, List.sum_cons, List.take_add]
      · simp only [Conv.converter] at e7
        rw [e7, e2, List.sum_cons, List.drop_drop]

/-! ## The sample encodings keep the contract -/

theorem utf8Decode_contract (view : List Nat) (h : view ≠ []) :
    0 ≤ (utf8Decode view).point ∧ 1 ≤ (utf8Decode view).numBytes ∧
      (utf8Decode view).numBytes ≤ min 4 view.length ∧
      ((utf8Decode view).status = Status.Truncated → view.length < 4) := by
  rcases view with _ | ⟨b, _ | ⟨c1, _ | ⟨c2, _ | ⟨c3, rest⟩⟩⟩⟩
  · exact absurd rfl h
  all_goals
    simp only [utf8Decode]
    split_ifs <;> simp <;> omega

theorem utf8Encode_length (point : Int) :
    1 ≤ (utf8Encode point).length ∧ (utf8Encode point).length ≤ 4 := by
  unfold utf8Encode
  simp only
  split_ifs <;> simp

theorem utf8Like_wellBehaved : WellBehaved utf8Like utf8Like where
  point_nonneg := fun view h => (utf8Decode_contract view h).1
  numBytes_pos := fun view h => (utf8Decode_contract view h).2.1
  numBytes_le := fun view h => (utf8Decode_contract view h).2.2.1
  truncated_short := fun view h => (utf8Decode_contract view h).2.2.2
  encode_pos := fun _ point _ _ => (utf8Encode_length point).1
  encode_le := fun _ point _ _ => (utf8Encode_length point).2
  encode_room := fun _ _ _ _ => rfl

theorem latin1_wellBehaved : WellBehaved latin1 latin1 where
  point_nonneg := by
    intro view h
    cases view with
    | nil => exact absurd rfl h
    | cons b t => simp [latin1]
  numBytes_pos := by
    intro view h
    cases view with
    | nil => exact absurd rfl h
    | cons b t => simp [latin1]
  numBytes_le := by
    intro view h
    cases view with
    | nil => exact absurd rfl h
    | cons b t => simp [latin1]
  truncated_short := by
    intro view h
    cases view with
    | nil => exact absurd rfl h
    | cons b t => simp [latin1]
  encode_pos := by intro _ _ _ _; simp [latin1]
  encode_le := by intro _ _ _ _; simp [latin1]
  encode_room := fun _ _ _ _ => rfl

/-! ## Properties of one call -/

theorem convert_srcSmallBuf (dstEncoding srcEncoding : TextEncoding)
    (hpos : ∀ view, view ≠ [] → 1 ≤ (srcEncoding.decodePoint view).numBytes)
    (self : TextConverter) (dstNumBytes : Nat) (srcBuf : List Nat) (flush : Bool) (r : Conv)
    (h0 : self.srcSmallBuf.length < 4)
    (h : convert dstEncoding srcEncoding self dstNumBytes srcBuf flush = .ok r) :
    r.srcSmallBuf.length < 4 :=
  convertCarryLoop_srcSmallBuf dstEncoding srcEncoding flush hpos _
    (Conv.enter self dstNumBytes srcBuf) r h0 h

theorem reachable_srcSmallBuf (dstEncoding srcEncoding : TextEncoding)
    (hpos : ∀ view, view ≠ [] → 1 ≤ (srcEncoding.decodePoint view).numBytes)
    (s : TextConverter) (hs : Reachable dstEncoding srcEncoding s) :
    s.srcSmallBuf.length < 4 := by
  induction hs with
  | fresh => simp [TextConverter.fresh]
  | call self dstNumBytes srcBuf flush r _ h ih =>
    exact convert_srcSmallBuf dstEncoding srcEncoding hpos self dstNumBytes srcBuf flush r ih h

/-! ## The claims -/

/-- C1, evaluated where it fails. Both encodings are the UTF-8 shaped sample encoding, which
keeps the contract. The source C3 A9 41 converted by one call with `flush = true` gives
C3 A9 41. Fed as the chunks C3 and A9 41, the first call buffers C3 in `srcSmallBuf`; the
second call writes C3 A9 and then 41 again and again until the window of 16 bytes is full,
and returns with 41 both in `srcSmallBuf` and in the source window; a further call with a
new window starts from that same state and fills the window with 41 once more. -/
theorem chunked_torn_unit_repeats_bytes :
    WellBehaved utf8Like utf8Like ∧
    convert utf8Like utf8Like TextConverter.fresh 16 [0xC3, 0xA9, 0x41] true =
      .ok ⟨[], [], [0xC3, 0xA9, 0x41], 13, [], true⟩ ∧
    convert utf8Like utf8Like TextConverter.fresh 16 [0xC3] false =
      .ok ⟨[0xC3], [], [], 16, [], true⟩ ∧
    convert utf8Like utf8Like ⟨[0xC3], []⟩ 16 [0xA9, 0x41] true =
      .ok ⟨[0x41], [], [0xC3, 0xA9] ++ List.replicate 14 0x41, 0, [0x41], true⟩ ∧
    convert utf8Like utf8Like ⟨[0x41], []⟩ 16 [0x41] true =
      .ok ⟨[0x41], [], List.replicate 16 0x41, 0, [0x41], true⟩ :=
  ⟨utf8Like_wellBehaved, rfl, rfl, rfl, rfl⟩

/-- C4, evaluated where it fails. With the UTF-8 shaped sample encoding, the source E2 82 is
the start of a three-byte unit. A call with `flush = false` buffers both bytes in
`srcSmallBuf`. The call with `flush = true` that follows decodes the two buffered bytes,
the decoder consumes one of them, and `decoded.numBytes - smallBufInitialNumBytes` = 1 - 2
wraps around: the source window is asked to advance by 4294967295 bytes. -/
theorem flush_of_carried_unit_out_of_range :
    WellBehaved utf8Like utf8Like ∧
    convert utf8Like utf8Like TextConverter.fresh 8 [0xE2, 0x82] false =
      .ok ⟨[0xE2, 0x82], [], [], 8, [], true⟩ ∧
    convert utf8Like utf8Like ⟨[0xE2, 0x82], []⟩ 8 [] true = .error (.outOfRange 66) :=
  ⟨utf8Like_wellBehaved, rfl, rfl⟩

/-- C5 as stated fails: on a converter just constructed, a destination window of 0 bytes and
the source 41 trip the assertion `dstBuf->numBytes > 0` of line 81, so no call returns
`didWork = false`. -/
theorem convert_zero_dst_fresh_asserts :
    convert latin1 latin1 TextConverter.fresh 0 [0x41] false = .error (.assertion 81) ∧
    ¬ ∃ r, convert latin1 latin1 TextConverter.fresh 0 [0x41] false = .ok r ∧
        r.didWork = false ∧ r.srcBuf = [0x41] ∧ r.dstNumBytes = 0 ∧ r.written = [] := by
  refine ⟨rfl, ?_⟩
  rintro ⟨r, h, -⟩
  have h2 : convert latin1 latin1 TextConverter.fresh 0 [0x41] false =
      .error (.assertion 81) := rfl
  rw [h2] at h
  cases h

/-- C5 as amended. With a destination window of 0 bytes: when one of the small buffers holds
bytes, `convert` returns `didWork = false`, writes nothing and leaves both windows and both
small buffers as they were; when both are empty, the assertion of line 81 fails. -/
theorem convert_zero_dst (dstEncoding srcEncoding : TextEncoding) (self : TextConverter)
    (srcBuf : List Nat) (flush : Bool) :
    ((self.dstSmallBuf ≠ [] ∨ self.srcSmallBuf ≠ []) →
      convert dstEncoding srcEncoding self 0 srcBuf flush =
        .ok ⟨self.srcSmallBuf, self.dstSmallBuf, [], 0, srcBuf, false⟩) ∧
    ((self.dstSmallBuf = [] ∧ self.srcSmallBuf = []) →
      convert dstEncoding srcEncoding self 0 srcBuf flush = .error (.assertion 81)) := by
  constructor
  · intro h
    have hc : self.dstSmallBuf.length > 0 ∨ self.srcSmallBuf.length > 0 := by
      rcases h with h | h
      · exact Or.inl (List.length_pos.mpr h)
      · exact Or.inr (List.length_pos.mpr h)
    simp [convert, convertCarryLoop, Conv.enter, flushDstSmallBuf, hc]
  · rintro ⟨h1, h2⟩
    simp [convert, convertCarryLoop, convertAfterCarry, Conv.enter, h1, h2]

/-- C5 as amended, at a concrete input: two bytes wait in `dstSmallBuf`. -/
theorem convert_zero_dst_witness :
    (([1, 2] : List Nat) ≠ [] ∨ ([] : List Nat) ≠ []) ∧
    convert utf8Like utf8Like ⟨[], [1, 2]⟩ 0 [0x41] false =
      .ok ⟨[], [1, 2], [], 0, [0x41], false⟩ :=
  ⟨Or.inl (by decide),
    (convert_zero_dst utf8Like utf8Like ⟨[], [1, 2]⟩ [0x41] false).1 (Or.inl (by decide))⟩

/-- C6, evaluated where it fails. With the UTF-8 shaped sample encoding, E2 is the lead byte
of a three-byte unit and a first call buffers it. The next call, on the source window 82
with `flush = false`, returns `didWork = false`, yet `srcSmallBuf` has grown from E2 to
E2 82 while the source window still holds 82. -/
theorem convert_false_after_staging :
    convert utf8Like utf8Like TextConverter.fresh 8 [0xE2] false =
      .ok ⟨[0xE2], [], [], 8, [], true⟩ ∧
    convert utf8Like utf8Like ⟨[0xE2], []⟩ 8 [0x82] false =
      .ok ⟨[0xE2, 0x82], [], [], 8, [0x82], false⟩ :=
  ⟨rfl, rfl⟩

/-- C7. For encodings that keep the contract, a call entered with fewer than 4 bytes in
`srcSmallBuf` returns with fewer than 4 bytes in `srcSmallBuf`; hence every converter that
calls of `convert` leave behind, starting from a converter just constructed, has fewer
than 4 bytes in `srcSmallBuf`. -/
theorem convert_keeps_srcSmallBuf_short (dstEncoding srcEncoding : TextEncoding)
    (hwb : WellBehaved dstEncoding srcEncoding) (self : TextConverter) (dstNumBytes : Nat)
    (srcBuf : List Nat) (flush : Bool) (r : Conv)
    (h0 : self.srcSmallBuf.length < 4)
    (h : convert dstEncoding srcEncoding self dstNumBytes srcBuf flush = .ok r) :
    r.srcSmallBuf.length < 4 ∧
      ∀ s, Reachable dstEncoding srcEncoding s → s.srcSmallBuf.length < 4 :=
  ⟨convert_srcSmallBuf dstEncoding srcEncoding hwb.numBytes_pos self dstNumBytes srcBuf
      flush r h0 h,
    reachable_srcSmallBuf dstEncoding srcEncoding hwb.numBytes_pos⟩

/-- C7 at a concrete input: one byte of a three-byte unit is buffered and a second one
arrives. -/
theorem convert_keeps_srcSmallBuf_short_witness :
    WellBehaved utf8Like utf8Like ∧ ([0xE2] : List Nat).length < 4 ∧
    convert utf8Like utf8Like ⟨[0xE2], []⟩ 8 [0x82] false =
      .ok ⟨[0xE2, 0x82], [], [], 8, [0x82], false⟩ ∧
    (([0xE2, 0x82] : List Nat).length < 4 ∧
      ∀ s, Reachable utf8Like utf8Like s → s.srcSmallBuf.length < 4) :=
  ⟨utf8Like_wellBehaved, by decide, rfl,
    convert_keeps_srcSmallBuf_short utf8Like utf8Like utf8Like_wellBehaved ⟨[0xE2], []⟩ 8
      [0x82] false ⟨[0xE2, 0x82], [], [], 8, [0x82], false⟩ (by decide) rfl⟩

/-- C8. Whenever a call of `convert` returns with bytes left in `dstSmallBuf`, the
destination window has 0 bytes left. This holds from every converter state and for every
pair of encodings. -/
theorem convert_dstSmallBuf_left_fills_window (dstEncoding srcEncoding : TextEncoding)
    (self : TextConverter) (dstNumBytes : Nat) (srcBuf : List Nat) (flush : Bool) (r : Conv)
    (h : convert dstEncoding srcEncoding self dstNumBytes srcBuf flush = .ok r)
    (hne : r.dstSmallBuf ≠ []) : r.dstNumBytes = 0 := by
  rcases convertCarryLoop_dstSmallBuf dstEncoding srcEncoding flush _
      (Conv.enter self dstNumBytes srcBuf) r h with h1 | h1
  · exact absurd h1 hne
  · exact h1

/-- C8 at a concrete input: a window of 2 bytes takes the first two bytes of a three-byte
unit and the third stays in `dstSmallBuf`. -/
theorem convert_dstSmallBuf_left_fills_window_witness :
    convert utf8Like utf8Like TextConverter.fresh 2 [0xE2, 0x82, 0xAC, 0x41] true =
      .ok ⟨[], [0xAC], [0xE2, 0x82], 0, [0x41], true⟩ ∧
    ([0xAC] : List Nat) ≠ [] ∧ (0 : Nat) = 0 :=
  ⟨rfl, by decide,
    convert_dstSmallBuf_left_fills_window utf8Like utf8Like TextConverter.fresh 2
      [0xE2, 0x82, 0xAC, 0x41] true ⟨[], [0xAC], [0xE2, 0x82], 0, [0x41], true⟩ rfl
      (by decide)⟩

/-- C9. Both loops of `convert` end: the iteration budget that `convert` hands to its loops
is never used up, and a larger budget gives the same outcome. Each pass of the second loop
that stays in the loop stores at least one byte through `dstBuf`, and so do two passes of
the first loop. This holds for every pair of encodings and every converter state. -/
theorem convert_terminates (dstEncoding srcEncoding : TextEncoding) (self : TextConverter)
    (dstNumBytes : Nat) (srcBuf : List Nat) (flush : Bool) :
    convert dstEncoding srcEncoding self dstNumBytes srcBuf flush ≠ .error .budget ∧
    (∀ b, 2 * dstNumBytes + 2 ≤ b →
      convertCarryLoop dstEncoding srcEncoding flush b (Conv.enter self dstNumBytes srcBuf) =
        convert dstEncoding srcEncoding self dstNumBytes srcBuf flush) ∧
    (∀ b c, c.dstNumBytes + 1 ≤ b →
      convertMainLoop dstEncoding srcEncoding flush b c ≠ .error .budget ∧
      convertMainLoop dstEncoding srcEncoding flush b c =
        convertMainLoop dstEncoding srcEncoding flush (c.dstNumBytes + 1) c) := by
  have hm : carryMeasure (Conv.enter self dstNumBytes srcBuf) < 2 * dstNumBytes + 2 := by
    unfold carryMeasure Conv.enter
    dsimp only
    split_ifs <;> omega
  refine ⟨convertCarryLoop_ne_budget dstEncoding srcEncoding flush _ _ hm, ?_, ?_⟩
  · intro b hb
    exact convertCarryLoop_budget dstEncoding srcEncoding flush _ _ _ (by omega) hm
  · intro b c hb
    exact ⟨convertMainLoop_ne_budget dstEncoding srcEncoding flush b c (by omega),
      convertMainLoop_budget dstEncoding srcEncoding flush _ _ c (by omega) (by omega)⟩

/-- C10. A unit of two bytes torn across two calls. Let `decodePoint [b1]` be `Truncated`
and `decodePoint [b1, b2]` be `Ok`, consuming 2 bytes, with code point `c`; code points
are not negative and `encodePoint` stores between 1 and 4 bytes for `c`. On a converter
just constructed, `convert` on the source `[b1]` with `flush = false` and a destination
window that is not empty writes nothing, empties the source window and leaves `[b1]` in
`srcSmallBuf`. The call that follows, on the source `[b2]` with `flush = true` and a
destination window of at least 4 bytes, writes exactly the encoding of `c`, empties the
source window and leaves both small buffers empty. -/
theorem torn_unit_across_two_calls (dstEncoding srcEncoding : TextEncoding) (b1 b2 : Nat)
    (c : Int) (d1 d2 : Nat)
    (h1s : (srcEncoding.decodePoint [b1]).status = Status.Truncated)
    (h1p : 0 ≤ (srcEncoding.decodePoint [b1]).point)
    (h2 : srcEncoding.decodePoint [b1, b2] = ⟨c, Status.Ok, 2⟩)
    (hc : 0 ≤ c)
    (henc : 1 ≤ (dstEncoding.encodePoint 4 c).length)
    (henc4 : (dstEncoding.encodePoint 4 c).length ≤ 4)
    (hd1 : 0 < d1) (hd2 : 4 ≤ d2) :
    convert dstEncoding srcEncoding TextConverter.fresh d1 [b1] false =
      .ok ⟨[b1], [], [], d1, [], true⟩ ∧
    convert dstEncoding srcEncoding ⟨[b1], []⟩ d2 [b2] true =
      .ok ⟨[], [], dstEncoding.encodePoint 4 c,
        d2 - (dstEncoding.encodePoint 4 c).length, [], true⟩ := by
  constructor
  · have hd1' : ¬ d1 = 0 := by omega
    simp [convert, Conv.enter, TextConverter.fresh, convertCarryLoop, convertAfterCarry,
      convertMainLoop, hd1, hd1', h1s, not_lt.mpr h1p]
  · have hd2' : ¬ d2 = 0 := by omega
    have hle : (dstEncoding.encodePoint 4 c).length ≤ d2 := by omega
    have hne : dstEncoding.encodePoint 4 c ≠ [] := by
      intro h; rw [h] at henc; simp at henc
    have hf1 : flushDstSmallBuf ⟨[b1], [], [], d2, [b2], false⟩ =
        ⟨[b1], [], [], d2, [b2], false⟩ := by
      simp [flushDstSmallBuf]
    have hf2 : flushDstSmallBuf ⟨[], dstEncoding.encodePoint 4 c, [], d2, [], true⟩ =
        ⟨[], [], dstEncoding.encodePoint 4 c, d2 - (dstEncoding.encodePoint 4 c).length, [],
          true⟩ := by
      rw [flushDstSmallBuf_eq]
      simp [List.take_of_length_le hle, List.drop_of_length_le hle]
    have hst : [b1] ++ List.take (min (4 - [b1].length) [b2].length) [b2] = [b1, b2] := rfl
    have hpop : popFront [b1, b2] 2 = [] := rfl
    have hdrop : List.drop 1 [b2] = [] := rfl
    have hofs : (2 + 4294967296 - [b1].length) % 4294967296 = 1 := by
      simp only [List.length_cons, List.length_nil]
    rw [convert, show 2 * d2 + 2 = (2 * d2) + 1 + 1 from rfl]
    simp only [Conv.enter, convertCarryLoop, hf1]
    simp only [hst, h2]
    simp only [hofs]
    simp only [hpop, hdrop]
    simp only [hf2]
    rw [if_pos (show ([] : List Nat).length > 0 ∨ [b1].length > 0 from
      Or.inr (Nat.succ_pos _))]
    rw [if_neg hd2']
    rw [if_neg (show ¬ ¬ ([] : List Nat).length = 0 from not_not.mpr rfl)]
    rw [if_neg (show ¬ [b1].length = 0 from Nat.succ_ne_zero _)]
    rw [if_neg (not_lt.mpr hc)]
    rw [if_neg (show ¬ (Status.Ok = Status.Truncated ∧ true = false) from
      fun h => Bool.noConfusion h.2)]
    rw [if_neg (show ¬ 1 > [b2].length from Nat.lt_irrefl 1)]
    rw [if_neg (show ¬ 2 > [b1, b2].length from Nat.lt_irrefl 2)]
    rw [if_neg (show ¬ ¬ (dstEncoding.encodePoint 4 c).length > 0 from not_not.mpr henc)]
    rw [if_pos (show (dstEncoding.encodePoint 4 c).length > 0 ∨ ([] : List Nat).length > 0
      from Or.inl henc)]
    by_cases hz : d2 - (dstEncoding.encodePoint 4 c).length = 0
    · rw [if_pos hz]
    · rw [if_neg hz, if_neg (show ¬ ¬ ([] : List Nat).length = 0 from not_not.mpr rfl),
        if_pos (show ([] : List Nat).length = 0 from rfl)]
      have hz' : 0 < d2 - (dstEncoding.encodePoint 4 c).length := Nat.pos_of_ne_zero hz
      simp only [convertAfterCarry, convertMainLoop]
      rw [if_neg (not_not.mpr hz'), if_neg (show ¬ ¬ ([] : List Nat).length = 0 from
        not_not.mpr rfl), if_neg (show ¬ ¬ ([] : List Nat).length = 0 from not_not.mpr rfl),
        if_neg (show ¬ ([] : List Nat).length > 0 from Nat.lt_irrefl 0)]

/-- C10 at a concrete input: the two bytes C3 A9 of the UTF-8 shaped sample encoding, code
point 233, a first window of 1 byte and a second window of 4 bytes. -/
theorem torn_unit_across_two_calls_witness :
    (utf8Like.decodePoint [0xC3]).status = Status.Truncated ∧
    0 ≤ (utf8Like.decodePoint [0xC3]).point ∧
    utf8Like.decodePoint [0xC3, 0xA9] = ⟨233, Status.Ok, 2⟩ ∧
    (0 : Int) ≤ 233 ∧
    1 ≤ (utf8Like.encodePoint 4 233).length ∧ (utf8Like.encodePoint 4 233).length ≤ 4 ∧
    0 < 1 ∧ 4 ≤ 4 ∧
    (convert utf8Like utf8Like TextConverter.fresh 1 [0xC3] false =
      .ok ⟨[0xC3], [], [], 1, [], true⟩ ∧
     convert utf8Like utf8Like ⟨[0xC3], []⟩ 4 [0xA9] true =
      .ok ⟨[], [], utf8Like.encodePoint 4 233,
        4 - (utf8Like.encodePoint 4 233).length, [], true⟩) :=
  ⟨rfl, by decide, rfl, by decide, by decide, by decide, by decide, by decide,
    torn_unit_across_two_calls utf8Like utf8Like 0xC3 0xA9 233 1 4 rfl (by decide) rfl
      (by decide) (by decide) (by decide) (by decide) (by decide)⟩

/-- C2. For encodings that keep the contract and a source `S`, one call of `convert` on a
converter just constructed, with `flush = true` and a destination window that is not empty
and has at least 4 bytes for each code point of `S`, writes exactly the reference
transcoding of `S` (the encodings of the code points got by decoding `S` again and again,
in that order); on return the source window and both small buffers are empty and the
destination window has shrunk by the number of bytes written. `convertInternal` returns the
same bytes, whatever windows of at least one byte the memory stream exposes, as long as
they offer room for the whole output. -/
theorem convert_one_call_eq_reference (dstEncoding srcEncoding : TextEncoding)
    (hwb : WellBehaved dstEncoding srcEncoding) (S : List Nat) (dstNumBytes : Nat)
    (outs : List Nat)
    (hpos : 0 < dstNumBytes)
    (hroom : 4 * (codePoints srcEncoding S).length ≤ dstNumBytes)
    (hunit : 0 < dstEncoding.unitSize)
    (houts : ∀ w ∈ outs, 0 < w)
    (hsum : (reference dstEncoding srcEncoding S).length ≤ outs.sum) :
    (∃ r, convert dstEncoding srcEncoding TextConverter.fresh dstNumBytes S true = .ok r ∧
      r.written = reference dstEncoding srcEncoding S ∧
      r.srcBuf = [] ∧ r.srcSmallBuf = [] ∧ r.dstSmallBuf = [] ∧
      r.dstNumBytes + r.written.length = dstNumBytes) ∧
    convertInternal dstEncoding srcEncoding outs S =
      .ok (reference dstEncoding srcEncoding S) := by
  have hlen := reference_length_le dstEncoding srcEncoding hwb S
  have hle : (reference dstEncoding srcEncoding S).length ≤ dstNumBytes := by omega
  constructor
  · obtain ⟨r, hr, e1, e2, e3, e4, -⟩ := convert_flush dstEncoding srcEncoding hwb
      TextConverter.fresh dstNumBytes S rfl (Or.inl hpos)
    simp only [TextConverter.fresh, List.nil_append] at e1 e2 e3
    rw [List.take_of_length_le hle] at e1
    rw [List.drop_of_length_le hle, List.append_eq_nil] at e2
    refine ⟨r, hr, e1, reference_eq_nil dstEncoding srcEncoding hwb _ e2.2, e4, e2.1, ?_⟩
    rw [e3, e1]
    omega
  · obtain ⟨t, ht, e1⟩ := writeTo_flush dstEncoding srcEncoding hwb outs
      TextConverter.fresh S rfl houts
    simp only [TextConverter.fresh, List.nil_append] at e1
    rw [List.take_of_length_le hsum] at e1
    unfold convertInternal
    rw [ht]
    simp only
    rw [if_neg (not_not.mpr hunit), e1]

/-- C2 at a concrete input: the source C3 A9 41 of the UTF-8 shaped sample encoding (two
code points), a destination window of 8 bytes, and a memory stream exposing windows of 2
bytes. -/
theorem convert_one_call_eq_reference_witness :
    WellBehaved utf8Like utf8Like ∧ 0 < 8 ∧
    4 * (codePoints utf8Like [0xC3, 0xA9, 0x41]).length ≤ 8 ∧
    0 < utf8Like.unitSize ∧ (∀ w ∈ [2, 2, 2], 0 < w) ∧
    (reference utf8Like utf8Like [0xC3, 0xA9, 0x41]).length ≤ [2, 2, 2].sum ∧
    ((∃ r, convert utf8Like utf8Like TextConverter.fresh 8 [0xC3, 0xA9, 0x41] true = .ok r ∧
      r.written = reference utf8Like utf8Like [0xC3, 0xA9, 0x41] ∧
      r.srcBuf = [] ∧ r.srcSmallBuf = [] ∧ r.dstSmallBuf = [] ∧
      r.dstNumBytes + r.written.length = 8) ∧
    convertInternal utf8Like utf8Like [2, 2, 2] [0xC3, 0xA9, 0x41] =
      .ok (reference utf8Like utf8Like [0xC3, 0xA9, 0x41])) :=
  ⟨utf8Like_wellBehaved, by decide, by decide, by decide, by decide, by decide,
    convert_one_call_eq_reference utf8Like utf8Like utf8Like_wellBehaved [0xC3, 0xA9, 0x41] 8
      [2, 2, 2] (by decide) (by decide) (by decide) (by decide) (by decide)⟩

/-- C3. For encodings that keep the contract, a source `S` and destination windows of at
least one byte each that together offer room for the whole output: calling `convert` with
`flush = true` once per window on a converter just constructed, each time on the part of
`S` not yet consumed, ends with the source window and both small buffers empty, and the
bytes written to the successive windows, one after the other, are the bytes that a single
call with `flush = true` writes into one window large enough for the whole output. -/
theorem convert_windows_eq_one_call (dstEncoding srcEncoding : TextEncoding)
    (hwb : WellBehaved dstEncoding srcEncoding) (S : List Nat) (windows : List Nat)
    (big : Nat)
    (hwin : ∀ w ∈ windows, 1 ≤ w)
    (hsum : (reference dstEncoding srcEncoding S).length ≤ windows.sum)
    (hpos : 0 < big)
    (hbig : (reference dstEncoding srcEncoding S).length ≤ big) :
    ∃ out self' r,
      convertInto dstEncoding srcEncoding windows TextConverter.fresh S = .ok (out, self', []) ∧
      self'.srcSmallBuf = [] ∧ self'.dstSmallBuf = [] ∧
      convert dstEncoding srcEncoding TextConverter.fresh big S true = .ok r ∧
      out = r.written := by
  obtain ⟨out, self', srcBuf', h1, e1, e2, e3⟩ := convertInto_flush dstEncoding srcEncoding
    hwb windows TextConverter.fresh S rfl hwin
  obtain ⟨r, hr, f1, -⟩ := convert_flush dstEncoding srcEncoding hwb
    TextConverter.fresh big S rfl (Or.inl hpos)
  simp only [TextConverter.fresh, List.nil_append] at e1 e2 f1
  rw [List.take_of_length_le hsum] at e1
  rw [List.take_of_length_le hbig] at f1
  rw [List.drop_of_length_le hsum, List.append_eq_nil] at e2
  have hs : srcBuf' = [] := reference_eq_nil dstEncoding srcEncoding hwb _ e2.2
  rw [hs] at h1
  exact ⟨out, self', r, h1, e3, e2.1, hr, by rw [e1, f1]⟩

/-- C3 at a concrete input: the source E2 82 AC 41 of the UTF-8 shaped sample encoding,
written through windows of 1, 2, 1 and 3 bytes, against one window of 16 bytes. -/
theorem convert_windows_eq_one_call_witness :
    WellBehaved utf8Like utf8Like ∧ (∀ w ∈ [1, 2, 1, 3], 1 ≤ w) ∧
    (reference utf8Like utf8Like [0xE2, 0x82, 0xAC, 0x41]).length ≤ [1, 2, 1, 3].sum ∧
    0 < 16 ∧ (reference utf8Like utf8Like [0xE2, 0x82, 0xAC, 0x41]).length ≤ 16 ∧
    ∃ out self' r,
      convertInto utf8Like utf8Like [1, 2, 1, 3] TextConverter.fresh [0xE2, 0x82, 0xAC, 0x41] =
        .ok (out, self', []) ∧
      self'.srcSmallBuf = [] ∧ self'.dstSmallBuf = [] ∧
      convert utf8Like utf8Like TextConverter.fresh 16 [0xE2, 0x82, 0xAC, 0x41] true = .ok r ∧
      out = r.written :=
  ⟨utf8Like_wellBehaved, by decide, by decide, by decide, by decide,
    convert_windows_eq_one_call utf8Like utf8Like utf8Like_wellBehaved
      [0xE2, 0x82, 0xAC, 0x41] [1, 2, 1, 3] 16 (by decide) (by decide) (by decide)
      (by decide)⟩

/-- C11. Narrow to wide, with room for exactly one unit. Let `decodePoint` of the source
encoding consume exactly 1 byte with status `Ok` on every input, and let `encodePoint` of
the destination encoding store exactly 4 bytes. On a converter just constructed, `convert`
on the source `[b1, b2]` with a destination window of 4 bytes, whatever `flush`, writes
exactly the 4 bytes that encode the code point decoded at `b1`, leaves the destination
window empty, consumes both source bytes and leaves in `dstSmallBuf` the 4 bytes that
encode the code point decoded at `b2`. A following call with a destination window of at
least 4 bytes and an empty source writes exactly those 4 bytes and leaves `dstSmallBuf`
empty. -/
theorem narrow_to_wide_one_unit_window (dstEncoding srcEncoding : TextEncoding)
    (b1 b2 : Nat) (d2 : Nat) (flush flush2 : Bool)
    (hdec : ∀ view, view ≠ [] → (srcEncoding.decodePoint view).status = Status.Ok ∧
      (srcEncoding.decodePoint view).numBytes = 1 ∧ 0 ≤ (srcEncoding.decodePoint view).point)
    (henc : ∀ cap point, 4 ≤ cap → 0 ≤ point →
      (dstEncoding.encodePoint cap point).length = 4)
    (hd2 : 4 ≤ d2) :
    convert dstEncoding srcEncoding TextConverter.fresh 4 [b1, b2] flush =
      .ok ⟨[], dstEncoding.encodePoint 4 (srcEncoding.decodePoint [b2]).point,
        dstEncoding.encodePoint 4 (srcEncoding.decodePoint [b1, b2]).point, 0, [], true⟩ ∧
    convert dstEncoding srcEncoding
        ⟨[], dstEncoding.encodePoint 4 (srcEncoding.decodePoint [b2]).point⟩ d2 [] flush2 =
      .ok ⟨[], [], dstEncoding.encodePoint 4 (srcEncoding.decodePoint [b2]).point,
        d2 - 4, [], true⟩ := by
  obtain ⟨hs1, hn1, hp1⟩ := hdec [b1, b2] (by simp)
  obtain ⟨hs2, hn2, hp2⟩ := hdec [b2] (by simp)
  have he1 := henc 4 _ (le_refl 4) hp1
  have he2 := henc 4 _ (le_refl 4) hp2
  constructor
  · simp [convert, convertCarryLoop, convertAfterCarry, convertMainLoop, flushDstSmallBuf,
      popFront, Conv.enter, TextConverter.fresh, hs1, hn1, hs2, hn2, he1, he2,
      not_lt.mpr hp1, not_lt.mpr hp2]
  · have hd2' : ¬ d2 = 0 := by omega
    have hf : flushDstSmallBuf
        ⟨[], dstEncoding.encodePoint 4 (srcEncoding.decodePoint [b2]).point, [], d2, [],
          false⟩ =
        ⟨[], [], dstEncoding.encodePoint 4 (srcEncoding.decodePoint [b2]).point, d2 - 4, [],
          true⟩ := by
      rw [flushDstSmallBuf_eq]
      simp [he2, List.take_of_length_le (he2.le.trans hd2),
        List.drop_of_length_le (he2.le.trans hd2)]
      omega
    rw [convert, show 2 * d2 + 2 = (2 * d2 + 1) + 1 from rfl]
    simp only [Conv.enter, convertCarryLoop, hf]
    rw [if_pos (Or.inl (by rw [he2]; decide))]
    by_cases hz : d2 - 4 = 0
    · rw [if_pos hz]
    · rw [if_neg hz, if_neg (show ¬ ¬ ([] : List Nat).length = 0 from not_not.mpr rfl),
        if_pos (show ([] : List Nat).length = 0 from rfl)]
      simp [convertAfterCarry, convertMainLoop, hz]
      omega

theorem latin1_decodePoint (view : List Nat) (h : view ≠ []) :
    (latin1.decodePoint view).status = Status.Ok ∧ (latin1.decodePoint view).numBytes = 1 ∧
      0 ≤ (latin1.decodePoint view).point := by
  cases view with
  | nil => exact absurd rfl h
  | cons b t => simp [latin1]

/-- C11 at a concrete input: the bytes 41 42 of the single-byte sample encoding, converted
to the four-byte sample encoding; the second window has 4 bytes. -/
theorem narrow_to_wide_one_unit_window_witness :
    (∀ view, view ≠ [] → (latin1.decodePoint view).status = Status.Ok ∧
      (latin1.decodePoint view).numBytes = 1 ∧ 0 ≤ (latin1.decodePoint view).point) ∧
    (∀ cap point, 4 ≤ cap → 0 ≤ point → (utf32Like.encodePoint cap point).length = 4) ∧
    4 ≤ 4 ∧
    (convert utf32Like latin1 TextConverter.fresh 4 [0x41, 0x42] false =
      .ok ⟨[], utf32Like.encodePoint 4 (latin1.decodePoint [0x42]).point,
        utf32Like.encodePoint 4 (latin1.decodePoint [0x41, 0x42]).point, 0, [], true⟩ ∧
    convert utf32Like latin1
        ⟨[], utf32Like.encodePoint 4 (latin1.decodePoint [0x42]).point⟩ 4 [] true =
      .ok ⟨[], [], utf32Like.encodePoint 4 (latin1.decodePoint [0x42]).point,
        4 - 4, [], true⟩) :=
  ⟨latin1_decodePoint, fun _ _ _ _ => rfl, le_refl 4,
    narrow_to_wide_one_unit_window utf32Like latin1 0x41 0x42 4 false true
      latin1_decodePoint (fun _ _ _ _ => rfl) (le_refl 4)⟩

theorem convertMainLoop_identity (encoding : TextEncoding) (flush : Bool)
    (hdec : ∀ (b : Nat) (rest : List Nat), b < 256 →
      encoding.decodePoint (b :: rest) = ⟨(b : Int), Status.Ok, 1⟩)
    (henc : ∀ (cap b : Nat), 4 ≤ cap → b < 256 → encoding.encodePoint cap (b : Int) = [b]) :
    ∀ (budget : Nat) (c : Conv), c.dstNumBytes < budget → c.dstSmallBuf = [] →
      c.srcBuf.length ≤ c.dstNumBytes → (∀ x ∈ c.srcBuf, x < 256) →
      convertMainLoop encoding encoding flush budget c =
        .ok { c with
              written := c.written ++ c.srcBuf
              dstNumBytes := c.dstNumBytes - c.srcBuf.length
              srcBuf := []
              didWork := c.didWork || decide (c.srcBuf ≠ []) } := by
  intro budget
  induction budget with
  | zero => intro c h; omega
  | succ n ih =>
    intro c
    obtain ⟨ss, ds, wr, d, sb, dw⟩ := c
    intro hb h0 hlen hbytes
    simp only at hb h0 hlen hbytes
    subst h0
    cases sb with
    | nil => simp [convertMainLoop]
    | cons x rest =>
      have hx : x < 256 := hbytes x (List.mem_cons_self _ _)
      have hrest : ∀ y ∈ rest, y < 256 := fun y hy => hbytes y (List.mem_cons_of_mem _ hy)
      simp only [List.length_cons] at hlen
      have hxn : ¬ (x : Int) < 0 := by omega
      have hd0 : ¬ d = 0 := by omega
      have hsub : d - 1 - rest.length = d - (rest.length + 1) := by omega
      simp only [convertMainLoop, hdec x rest hx]
      by_cases hd : d ≥ 4
      · have h1 := ih ⟨ss, [], wr ++ [x], d - 1, rest, true⟩ (by simp only; omega) rfl
          (by simp only; omega) hrest
        simp only at h1
        simp [hd, henc d x hd hx, h1, hxn, hd0, hsub]
      · have hf : flushDstSmallBuf ⟨ss, [x], wr, d, rest, true⟩ =
            ⟨ss, [], wr ++ [x], d - 1, rest, true⟩ := by
          rw [flushDstSmallBuf_eq]
          have : 1 ≤ d := by omega
          simp [List.take_of_length_le (show [x].length ≤ d from this),
            List.drop_of_length_le (show [x].length ≤ d from this)]
        by_cases hz : d - 1 = 0
        · have hr : rest = [] := List.length_eq_zero.mp (by omega)
          subst hr
          simp [hd, henc 4 x (le_refl 4) hx, hf, hz, hxn]
        · have h1 := ih ⟨ss, [], wr ++ [x], d - 1, rest, true⟩ (by simp only; omega) rfl
            (by simp only; omega) hrest
          simp only at h1
          simp [hd, henc 4 x (le_refl 4) hx, hf, hz, h1, hxn, hsub]

/-- C12. Identity transcoding with a single-byte encoding. Let the encoding decode every
byte as its own code point, consuming 1 byte with status `Ok`, and encode that code point
as that one byte. For every non-empty source `S` of bytes and every destination window of
at least `|S|` bytes, `convert` on a converter just constructed, whatever `flush`, writes
exactly `S`, returns `didWork = true`, leaves the source window empty, the destination
window shorter by `|S|` bytes and both small buffers empty. -/
theorem identity_single_byte (encoding : TextEncoding) (flush : Bool) (S : List Nat) (n : Nat)
    (hdec : ∀ (b : Nat) (rest : List Nat), b < 256 →
      encoding.decodePoint (b :: rest) = ⟨(b : Int), Status.Ok, 1⟩)
    (henc : ∀ (cap b : Nat), 4 ≤ cap → b < 256 → encoding.encodePoint cap (b : Int) = [b])
    (hbytes : ∀ x ∈ S, x < 256) (hne : S ≠ []) (hn : S.length ≤ n) :
    convert encoding encoding TextConverter.fresh n S flush =
      .ok ⟨[], [], S, n - S.length, [], true⟩ := by
  have hpos : 0 < S.length := List.length_pos.mpr hne
  have hn0 : 0 < n := by omega
  have h := convertMainLoop_identity encoding flush hdec henc (n + 1)
    (Conv.enter TextConverter.fresh n S) (Nat.lt_succ_self _) rfl hn hbytes
  rw [convert, show 2 * n + 2 = (2 * n + 1) + 1 from rfl]
  simp only [convertCarryLoop, Conv.enter, TextConverter.fresh, convertAfterCarry]
  simp only [Conv.enter, TextConverter.fresh] at h
  simp [hn0, h, hne]

/-- C12 at the input of the scenario: `S` is "AB" and the destination window has 10
bytes. -/
theorem identity_single_byte_witness :
    (∀ (b : Nat) (rest : List Nat), b < 256 →
      latin1.decodePoint (b :: rest) = ⟨(b : Int), Status.Ok, 1⟩) ∧
    (∀ (cap b : Nat), 4 ≤ cap → b < 256 → latin1.encodePoint cap (b : Int) = [b]) ∧
    (∀ x ∈ [0x41, 0x42], x < 256) ∧ ([0x41, 0x42] : List Nat) ≠ [] ∧
    ([0x41, 0x42] : List Nat).length ≤ 10 ∧
    convert latin1 latin1 TextConverter.fresh 10 [0x41, 0x42] false =
      .ok ⟨[], [], [0x41, 0x42], 10 - ([0x41, 0x42] : List Nat).length, [], true⟩ :=
  ⟨fun _ _ _ => rfl,
    fun _ b _ hb => by simp [latin1, Nat.mod_eq_of_lt hb],
    by decide, by decide, by decide,
    identity_single_byte latin1 false [0x41, 0x42] 10 (fun _ _ _ => rfl)
      (fun _ b _ hb => by simp [latin1, Nat.mod_eq_of_lt hb]) (by decide) (by decide)
      (by decide)⟩

/-- C13, evaluated where it fails. With the UTF-8 shaped sample encoding, F0 is the lead
byte of a four-byte unit and is held in `srcSmallBuf`. A call on the source window 9F 98
with `flush = false` enters the first loop, stages both bytes, and the decode of F0 9F 98
is `Truncated`. On return `srcSmallBuf` is F0 9F 98, as the claim says, but the source
window still holds 9F 98: it has not been advanced by the 2 bytes staged. -/
theorem carry_resume_leaves_source_window :
    (utf8Like.decodePoint [0xF0, 0x9F, 0x98]).status = Status.Truncated ∧
    convert utf8Like utf8Like TextConverter.fresh 8 [0xF0] false =
      .ok ⟨[0xF0], [], [], 8, [], true⟩ ∧
    convert utf8Like utf8Like ⟨[0xF0], []⟩ 8 [0x9F, 0x98] false =
      .ok ⟨[0xF0, 0x9F, 0x98], [], [], 8, [0x9F, 0x98], false⟩ :=
  ⟨rfl, rfl, rfl⟩

/-- C14, evaluated where it fails. With the UTF-8 shaped sample encoding, C3 is held in
`srcSmallBuf` and the source window is A9 41. A call with a destination window of 4 bytes
writes C3 A9 41 41 and returns with 41 in `srcSmallBuf` and 41 in the source window. The
three bytes C3 A9 41 present on entry cannot be split into bytes consumed, followed by
`srcSmallBuf` on return, followed by the source window on return: 41 is counted twice.
The log of the call shows `decodePoint` called on C3 A9 41 and then twice on 41 41. -/
theorem carry_resume_duplicates_source_bytes :
    convert utf8Like utf8Like ⟨[0xC3], []⟩ 4 [0xA9, 0x41] false =
      .ok ⟨[0x41], [], [0xC3, 0xA9, 0x41, 0x41], 0, [0x41], true⟩ ∧
    (convertLog utf8Like utf8Like ⟨[0xC3], []⟩ 4 [0xA9, 0x41] false).2 =
      [Event.decode 57 [0xC3, 0xA9, 0x41] 0, Event.encode 71 4 0,
        Event.decode 57 [0x41, 0x41] 0, Event.encode 71 4 0,
        Event.decode 57 [0x41, 0x41] 0, Event.encode 71 4 0] ∧
    ¬ ∃ consumed : List Nat, [0xC3] ++ [0xA9, 0x41] = consumed ++ [0x41] ++ [0x41] := by
  refine ⟨rfl, rfl, ?_⟩
  rintro ⟨consumed, h⟩
  have hl := congrArg List.length h
  simp only [List.length_append, List.length_cons, List.length_nil] at hl
  obtain ⟨x, rfl⟩ := List.length_eq_one.mp (show consumed.length = 1 by omega)
  simp at h

/-- C15, evaluated where it fails. With the UTF-8 shaped sample encoding, a first call on
the source C3 leaves C3 in `srcSmallBuf`, so that converter is reachable. The next call,
on the source window A9 41 42, decodes C3 A9 and leaves 41 42 in `srcSmallBuf`; the next
pass of the first loop has `smallBufInitialNumBytes = 2`, decodes 41 with
`decoded.numBytes = 1`, and the `u32` difference 1 - 2 wraps to 4294967295, more than the
source window holds. -/
theorem carry_resume_offset_wraps :
    Reachable utf8Like utf8Like ⟨[0xC3], []⟩ ∧
    convert utf8Like utf8Like ⟨[0xC3], []⟩ 16 [0xA9, 0x41, 0x42] true =
      .error (.outOfRange 66) ∧
    (utf8Like.decodePoint [0x41, 0x42, 0x41, 0x42]).numBytes = 1 ∧
    (1 + 4294967296 - ([0x41, 0x42] : List Nat).length) % 4294967296 = 4294967295 :=
  ⟨Reachable.call TextConverter.fresh 16 [0xC3] false ⟨[0xC3], [], [], 16, [], true⟩
      Reachable.fresh rfl, rfl, rfl, rfl⟩

/-- C18. `writeTo` over a sink given as the sequence of its writable windows. Whenever
`writeTo` returns: the `convert` calls it made are calls on the successive windows, each
on the converter and source window left by the call before; it returns `true` exactly
when one of those calls returned `true`; every call but the last returned `true`, so no
call follows a call that returned `false`; it stopped either because the sink had no
further window or because the last call returned `false`; and the bytes committed to the
sink are the bytes the calls wrote, call after call. -/
theorem writeTo_stopping_rule (dstEncoding srcEncoding : TextEncoding) (flush : Bool) :
    ∀ (outs : List Nat) (self : TextConverter) (srcBuf : List Nat) (t : WriteResult),
      writeTo dstEncoding srcEncoding flush outs self srcBuf = .ok t →
      IsCallChain dstEncoding srcEncoding flush outs self srcBuf t.calls ∧
      (t.anyWorkDone = true ↔ ∃ r ∈ t.calls, r.didWork = true) ∧
      (∀ r ∈ t.calls.dropLast, r.didWork = true) ∧
      (t.calls.length = outs.length ∨
        ∃ r, t.calls.getLast? = some r ∧ r.didWork = false) ∧
      t.committed = (t.calls.map (fun r => r.written)).flatten := by
  intro outs
  induction outs with
  | nil =>
    intro self srcBuf t h
    simp only [writeTo] at h
    cases h
    simp [IsCallChain]
  | cons w ws ih =>
    intro self srcBuf t h
    simp only [writeTo] at h
    cases hc : convert dstEncoding srcEncoding self w srcBuf flush with
    | error f => rw [hc] at h; cases h
    | ok r =>
      rw [hc] at h
      simp only at h
      by_cases hdw : r.didWork = false
      · rw [if_pos hdw] at h
        cases h
        simp [IsCallChain, hc, hdw]
      · rw [if_neg hdw] at h
        have hdw' : r.didWork = true := by simpa using hdw
        cases ht : writeTo dstEncoding srcEncoding flush ws r.converter r.srcBuf with
        | error f => rw [ht] at h; cases h
        | ok t' =>
          rw [ht] at h
          cases h
          obtain ⟨h1, h2, h3, h4, h5⟩ := ih r.converter r.srcBuf t' ht
          refine ⟨⟨hc, h1⟩, ?_, ?_, ?_, ?_⟩
          · simp [hdw']
          · intro x hx
            cases hcalls : t'.calls with
            | nil => simp [hcalls] at hx
            | cons y ys =>
              rw [hcalls] at hx h3
              rw [List.dropLast_cons₂] at hx
              rcases List.mem_cons.mp hx with hx | hx
              · rw [hx]; exact hdw'
              · exact h3 x hx
          · rcases h4 with h4 | ⟨x, hx, hxd⟩
            · left; simp [h4]
            · right
              refine ⟨x, ?_, hxd⟩
              cases hcalls : t'.calls with
              | nil => simp [hcalls] at hx
              | cons y ys =>
                rw [hcalls] at hx
                simpa [List.getLast?_cons_cons] using hx
          · simp [h5]

/-- C18 at a concrete input: the source C3 A9 41 of the UTF-8 shaped sample encoding and a
sink exposing three windows of 2 bytes; the third call returns `false`. -/
theorem writeTo_stopping_rule_witness :
    ∃ t, writeTo utf8Like utf8Like true [2, 2, 2] TextConverter.fresh [0xC3, 0xA9, 0x41] =
        .ok t ∧
      t.anyWorkDone = true ∧ t.committed = [0xC3, 0xA9, 0x41] ∧ t.calls.length = 3 ∧
      (IsCallChain utf8Like utf8Like true [2, 2, 2] TextConverter.fresh [0xC3, 0xA9, 0x41]
          t.calls ∧
        (t.anyWorkDone = true ↔ ∃ r ∈ t.calls, r.didWork = true) ∧
        (∀ r ∈ t.calls.dropLast, r.didWork = true) ∧
        (t.calls.length = [2, 2, 2].length ∨
          ∃ r, t.calls.getLast? = some r ∧ r.didWork = false) ∧
        t.committed = (t.calls.map (fun r => r.written)).flatten) :=
  ⟨⟨true, [0xC3, 0xA9, 0x41], ⟨[], []⟩, [],
      [⟨[], [], [0xC3, 0xA9], 0, [0x41], true⟩, ⟨[], [], [0x41], 1, [], true⟩,
        ⟨[], [], [], 2, [], false⟩]⟩,
    rfl, rfl, rfl, rfl,
    writeTo_stopping_rule utf8Like utf8Like true [2, 2, 2] TextConverter.fresh
      [0xC3, 0xA9, 0x41] _ rfl⟩

/-! ## The destination window only shrinks, by what is written -/

theorem flushDstSmallBuf_window (c : Conv) :
    (flushDstSmallBuf c).written.length + (flushDstSmallBuf c).dstNumBytes =
        c.written.length + c.dstNumBytes ∧
      (flushDstSmallBuf c).dstNumBytes ≤ c.dstNumBytes := by
  rw [flushDstSmallBuf_written, flushDstSmallBuf_dstNumBytes, List.length_append,
    List.length_take]
  omega

theorem convertMainLoop_window (dstEncoding srcEncoding : TextEncoding) (flush : Bool) :
    ∀ (b : Nat) (c r : Conv),
      convertMainLoop dstEncoding srcEncoding flush b c = .ok r →
      r.written.length + r.dstNumBytes = c.written.length + c.dstNumBytes ∧
        r.dstNumBytes ≤ c.dstNumBytes := by
  intro b
  induction b with
  | zero => intro c r h; simp [convertMainLoop] at h
  | succ n ih =>
    intro c r h
    rcases convertMainLoop_succ_cases dstEncoding srcEncoding flush n c with
      ⟨-, e⟩ | ⟨-, ⟨-, f, -, e⟩ | ⟨-, -, -, -, e⟩ | ⟨-, -, -, -, -, hle, e⟩ |
        ⟨-, -, -, -, -, -, e⟩ | ⟨-, -, -, -, -, -, e⟩⟩
    · rw [e] at h; cases h; exact ⟨rfl, le_refl _⟩
    · rw [e] at h; cases h
    · rw [e] at h; cases h; exact ⟨rfl, le_refl _⟩
    · rw [e] at h
      have h1 := ih _ r h
      simp only [List.length_append] at h1
      omega
    · rw [e] at h; cases h
      have h1 := flushDstSmallBuf_window
        { c with didWork := true,
                 srcBuf := c.srcBuf.drop (srcEncoding.decodePoint c.srcBuf).numBytes,
                 dstSmallBuf := dstEncoding.encodePoint 4
                   (srcEncoding.decodePoint c.srcBuf).point }
      exact h1
    · rw [e] at h
      have h1 := ih _ r h
      have h2 := flushDstSmallBuf_window
        { c with didWork := true,
                 srcBuf := c.srcBuf.drop (srcEncoding.decodePoint c.srcBuf).numBytes,
                 dstSmallBuf := dstEncoding.encodePoint 4
                   (srcEncoding.decodePoint c.srcBuf).point }
      simp only at h2
      omega

theorem convertAfterCarry_window (dstEncoding srcEncoding : TextEncoding) (flush : Bool)
    (c r : Conv) (h : convertAfterCarry dstEncoding srcEncoding flush c = .ok r) :
    r.written.length + r.dstNumBytes = c.written.length + c.dstNumBytes ∧
      r.dstNumBytes ≤ c.dstNumBytes := by
  unfold convertAfterCarry at h
  split_ifs at h
  exact convertMainLoop_window _ _ _ _ c r h

theorem convertCarryLoop_window (dstEncoding srcEncoding : TextEncoding) (flush : Bool) :
    ∀ (b : Nat) (c r : Conv),
      convertCarryLoop dstEncoding srcEncoding flush b c = .ok r →
      r.written.length + r.dstNumBytes = c.written.length + c.dstNumBytes ∧
        r.dstNumBytes ≤ c.dstNumBytes := by
  intro b
  induction b with
  | zero => intro c r h; simp [convertCarryLoop] at h
  | succ n ih =>
    intro c r h
    have hw := flushDstSmallBuf_window c
    rcases convertCarryLoop_succ_cases dstEncoding srcEncoding flush n c with
      ⟨-, e⟩ | ⟨-, ⟨-, e⟩ | ⟨-, -, -, e⟩ | ⟨-, f, -, e⟩ | ⟨-, -, -, -, -, -, -, e⟩ |
        ⟨-, -, -, -, -, -, -, -, e⟩⟩
    · rw [e] at h; exact convertAfterCarry_window _ _ _ _ r h
    · rw [e] at h; cases h; exact hw
    · rw [e] at h
      have h1 := convertAfterCarry_window _ _ _ _ r h
      omega
    · rw [e] at h; cases h
    · rw [e] at h; cases h; exact hw
    · rw [e] at h
      have h1 := ih _ r h
      simp only at h1
      omega

theorem convert_window (dstEncoding srcEncoding : TextEncoding) (self : TextConverter)
    (dstNumBytes : Nat) (srcBuf : List Nat) (flush : Bool) (r : Conv)
    (h : convert dstEncoding srcEncoding self dstNumBytes srcBuf flush = .ok r) :
    r.written.length + r.dstNumBytes = dstNumBytes := by
  have h1 := (convertCarryLoop_window dstEncoding srcEncoding flush _
    (Conv.enter self dstNumBytes srcBuf) r h).1
  simpa [Conv.enter] using h1

/-! ## With `flush = true` a call ends with the window full or the source used up -/

theorem convertMainLoop_flush_ends (dstEncoding srcEncoding : TextEncoding) :
    ∀ (b : Nat) (c r : Conv), c.srcSmallBuf = [] →
      convertMainLoop dstEncoding srcEncoding true b c = .ok r →
      r.dstNumBytes = 0 ∨ (r.srcSmallBuf = [] ∧ r.srcBuf = []) := by
  intro b
  induction b with
  | zero => intro c r _ h; simp [convertMainLoop] at h
  | succ n ih =>
    intro c r h0 h
    rcases convertMainLoop_succ_cases dstEncoding srcEncoding true n c with
      ⟨hs, e⟩ | ⟨-, ⟨-, f, -, e⟩ | ⟨-, -, hf, -, e⟩ | ⟨-, -, -, -, -, -, e⟩ |
        ⟨-, -, -, -, -, hz, e⟩ | ⟨-, -, -, -, -, -, e⟩⟩
    · rw [e] at h; cases h; exact Or.inr ⟨h0, List.length_eq_zero.mp hs⟩
    · rw [e] at h; cases h
    · cases hf
    · rw [e] at h; exact ih _ r (by exact h0) h
    · rw [e] at h; cases h; exact Or.inl hz
    · rw [e] at h
      refine ih _ r ?_ h
      rw [flushDstSmallBuf_srcSmallBuf]; exact h0

theorem convertAfterCarry_flush_ends (dstEncoding srcEncoding : TextEncoding)
    (c r : Conv) (h : convertAfterCarry dstEncoding srcEncoding true c = .ok r) :
    r.dstNumBytes = 0 ∨ (r.srcSmallBuf = [] ∧ r.srcBuf = []) := by
  unfold convertAfterCarry at h
  split_ifs at h with h1 h2 h3
  exact convertMainLoop_flush_ends _ _ _ c r (List.length_eq_zero.mp h3) h

theorem convertCarryLoop_flush_ends (dstEncoding srcEncoding : TextEncoding) :
    ∀ (b : Nat) (c r : Conv),
      convertCarryLoop dstEncoding srcEncoding true b c = .ok r →
      r.dstNumBytes = 0 ∨ (r.srcSmallBuf = [] ∧ r.srcBuf = []) := by
  intro b
  induction b with
  | zero => intro c r h; simp [convertCarryLoop] at h
  | succ n ih =>
    intro c r h
    rcases convertCarryLoop_succ_cases dstEncoding srcEncoding true n c with
      ⟨-, e⟩ | ⟨-, ⟨hz, e⟩ | ⟨-, -, -, e⟩ | ⟨-, f, -, e⟩ | ⟨-, -, -, -, -, hf, -, e⟩ |
        ⟨-, -, -, -, -, -, -, -, e⟩⟩
    · rw [e] at h; exact convertAfterCarry_flush_ends _ _ _ r h
    · rw [e] at h; cases h; exact Or.inl hz
    · rw [e] at h; exact convertAfterCarry_flush_ends _ _ _ r h
    · rw [e] at h; cases h
    · cases hf
    · rw [e] at h; exact ih _ r h

/-! ## A call on a view of at least 4 bytes writes at least one byte -/

theorem convertMainLoop_progress (dstEncoding srcEncoding : TextEncoding) (flush : Bool)
    (b : Nat) (c r : Conv) (hd : 0 < c.dstNumBytes) (hv : 4 ≤ c.srcBuf.length)
    (h : convertMainLoop dstEncoding srcEncoding flush b c = .ok r) :
    c.written.length < r.written.length := by
  cases b with
  | zero => simp [convertMainLoop] at h
  | succ n =>
    have hf := flushDstSmallBuf_window
      { c with didWork := true,
               srcBuf := c.srcBuf.drop (srcEncoding.decodePoint c.srcBuf).numBytes,
               dstSmallBuf := dstEncoding.encodePoint 4 (srcEncoding.decodePoint c.srcBuf).point }
    have hfd := flushDstSmallBuf_dstNumBytes
      { c with didWork := true,
               srcBuf := c.srcBuf.drop (srcEncoding.decodePoint c.srcBuf).numBytes,
               dstSmallBuf := dstEncoding.encodePoint 4 (srcEncoding.decodePoint c.srcBuf).point }
    simp only at hf hfd
    rcases convertMainLoop_succ_cases dstEncoding srcEncoding flush n c with
      ⟨hs, -⟩ | ⟨-, ⟨-, f, -, e⟩ | ⟨-, -, -, h4, -⟩ | ⟨-, -, -, -, hl, hle, e⟩ |
        ⟨-, -, -, -, hl, -, e⟩ | ⟨-, -, -, -, hl, -, e⟩⟩
    · omega
    · rw [e] at h; cases h
    · omega
    · rw [e] at h
      have h1 := convertMainLoop_window _ _ _ _ _ r h
      simp only [List.length_append] at h1
      omega
    · rw [e] at h; cases h
      omega
    · rw [e] at h
      have h1 := convertMainLoop_window _ _ _ _ _ r h
      omega

theorem convertCarryLoop_progress (dstEncoding srcEncoding : TextEncoding) (flush : Bool)
    (b : Nat) (c r : Conv) (hd : 0 < c.dstNumBytes) (hne : 0 < c.dstSmallBuf.length)
    (h : convertCarryLoop dstEncoding srcEncoding flush b c = .ok r) :
    c.written.length < r.written.length := by
  cases b with
  | zero => simp [convertCarryLoop] at h
  | succ n =>
    have hf := flushDstSmallBuf_window c
    have hfd := flushDstSmallBuf_dstNumBytes c
    rcases convertCarryLoop_succ_cases dstEncoding srcEncoding flush n c with
      ⟨hc, -⟩ | ⟨-, ⟨-, e⟩ | ⟨-, -, -, e⟩ | ⟨-, f, -, e⟩ | ⟨-, -, -, -, -, -, -, e⟩ |
        ⟨-, -, -, -, -, -, -, -, e⟩⟩
    · exact absurd (Or.inl hne) hc
    · rw [e] at h; cases h; omega
    · rw [e] at h
      have h1 := convertAfterCarry_window _ _ _ _ r h
      omega
    · rw [e] at h; cases h
    · rw [e] at h; cases h
      simp only
      omega
    · rw [e] at h
      have h1 := convertCarryLoop_window _ _ _ _ _ r h
      simp only at h1
      omega

theorem convert_progress (dstEncoding srcEncoding : TextEncoding) (self : TextConverter)
    (dstNumBytes : Nat) (view : List Nat) (flush : Bool) (r : Conv)
    (hd : 0 < dstNumBytes) (hv : 4 ≤ view.length)
    (h : convert dstEncoding srcEncoding self dstNumBytes view flush = .ok r) :
    0 < r.written.length := by
  unfold convert at h
  rw [show 2 * dstNumBytes + 2 = (2 * dstNumBytes + 1) + 1 from rfl] at h
  have hf := flushDstSmallBuf_window (Conv.enter self dstNumBytes view)
  have hfd := flushDstSmallBuf_dstNumBytes (Conv.enter self dstNumBytes view)
  have hfs := flushDstSmallBuf_srcBuf (Conv.enter self dstNumBytes view)
  have hfk := flushDstSmallBuf_srcSmallBuf (Conv.enter self dstNumBytes view)
  have he1 : (Conv.enter self dstNumBytes view).written.length = 0 := rfl
  have he2 : (Conv.enter self dstNumBytes view).dstNumBytes = dstNumBytes := rfl
  have he3 : (Conv.enter self dstNumBytes view).srcBuf = view := rfl
  rw [he1, he2] at hf
  rw [he2] at hfd
  rw [he3] at hfs
  rcases convertCarryLoop_succ_cases dstEncoding srcEncoding flush (2 * dstNumBytes + 1)
      (Conv.enter self dstNumBytes view) with
    ⟨-, e⟩ | ⟨-, ⟨hz, e⟩ | ⟨hz, -, -, e⟩ | ⟨-, f, -, e⟩ | ⟨-, -, -, -, -, -, h9, -⟩ |
      ⟨hz, -, -, -, -, -, -, hl, e⟩⟩
  · rw [e] at h
    unfold convertAfterCarry at h
    split_ifs at h
    have h1 := convertMainLoop_progress _ _ _ _ _ r (by simpa [Conv.enter] using hd)
      (by simpa [Conv.enter] using hv) h
    omega
  · rw [e] at h; cases h
    omega
  · rw [e] at h
    unfold convertAfterCarry at h
    split_ifs at h
    have h1 := convertMainLoop_progress _ _ _ _ _ r (Nat.pos_of_ne_zero hz)
      (by rw [hfs]; exact hv) h
    omega
  · rw [e] at h; cases h
  · exfalso
    rw [hfs, hfk] at h9
    simp only [List.length_append, List.length_take] at h9
    omega
  · rw [e] at h
    have h1 := convertCarryLoop_progress _ _ _ _ _ r (by simpa using Nat.pos_of_ne_zero hz)
      (by simpa using hl) h
    omega

theorem convert_ne_budget (dstEncoding srcEncoding : TextEncoding) (self : TextConverter)
    (dstNumBytes : Nat) (srcBuf : List Nat) (flush : Bool) :
    convert dstEncoding srcEncoding self dstNumBytes srcBuf flush ≠ .error .budget := by
  apply convertCarryLoop_ne_budget
  unfold carryMeasure Conv.enter
  dsimp only
  split_ifs <;> omega

/-- When `readFrom` returns. The stream is given as what it exposes at the successive
passes of the loop, a view of fewer than 4 bytes coming with `atEOF`, and the destination
window is not empty. Then the result is that of the `convert` call on the first view: the
value returned is the number of bytes that call wrote, and when that call wrote nothing
it had `flush = true`, left nothing available in the stream and left both small buffers
empty. -/
theorem readFrom_of_return (dstEncoding srcEncoding : TextEncoding)
    (view : List Nat) (atEOF : Bool) (rest : List (List Nat × Bool)) (self : TextConverter)
    (dstNumBytes : Nat) (hd : 0 < dstNumBytes) (hrule : view.length < 4 → atEOF = true)
    (res : ReadResult)
    (h : readFrom dstEncoding srcEncoding ((view, atEOF) :: rest) self dstNumBytes = .ok res) :
    ∃ r, convert dstEncoding srcEncoding self dstNumBytes view atEOF = .ok r ∧
      res = ⟨r.written.length, r.written, r.dstNumBytes, r.converter, r.srcBuf, atEOF⟩ ∧
      r.written.length + r.dstNumBytes = dstNumBytes ∧
      (r.written = [] →
        atEOF = true ∧ r.srcBuf = [] ∧ r.srcSmallBuf = [] ∧ r.dstSmallBuf = []) := by
  simp only [readFrom, readFromLoop] at h
  cases hc : convert dstEncoding srcEncoding self dstNumBytes view atEOF with
  | error f =>
    rw [hc] at h
    cases h
  | ok r =>
    rw [hc] at h
    simp only at h
    have hw := convert_window _ _ _ _ _ _ r hc
    have hends : r.written = [] →
        atEOF = true ∧ r.srcBuf = [] ∧ r.srcSmallBuf = [] ∧ r.dstSmallBuf = [] := by
      intro h0
      have hlen : r.written.length = 0 := by rw [h0]; rfl
      have hf : atEOF = true := by
        by_contra hf
        have hv : 4 ≤ view.length := by
          by_contra hlt
          exact hf (hrule (by omega))
        have := convert_progress dstEncoding srcEncoding self dstNumBytes view atEOF r hd hv hc
        omega
      have h1 : r.srcSmallBuf = [] ∧ r.srcBuf = [] := by
        subst hf
        rcases convertCarryLoop_flush_ends dstEncoding srcEncoding _ _ r hc with h1 | h1
        · omega
        · exact h1
      have h2 : r.dstSmallBuf = [] := by
        rcases convertCarryLoop_dstSmallBuf dstEncoding srcEncoding atEOF _ _ r hc with
          h2 | h2
        · exact h2
        · omega
      exact ⟨hf, h1.2, h1.1, h2⟩
    by_cases hs : r.written.length < 2147483648
    swap
    · rw [if_pos hs] at h
      cases h
    rw [if_neg (not_not.mpr hs)] at h
    have hmod : (0 + r.written.length) % 4294967296 = r.written.length := by omega
    rw [hmod] at h
    by_cases hpos : r.written.length > 0
    · rw [if_pos hpos] at h
      cases h
      exact ⟨r, rfl, by simp, hw, hends⟩
    rw [if_neg hpos] at h
    have h0 : r.written = [] := List.length_eq_zero.mp (by omega)
    obtain ⟨hf, -⟩ := hends h0
    rw [if_pos hf] at h
    by_cases ha : r.srcBuf.length = 0
    swap
    · rw [if_pos ha] at h
      cases h
    rw [if_neg (not_not.mpr ha)] at h
    cases h
    exact ⟨r, rfl, by simp, hw, hends⟩

/-- C19, evaluated where it fails. Both encodings are the UTF-8 shaped sample encoding,
which keeps the contract; the stream holds 41 41 E2 82 AC 41 41 41 and exposes 4 bytes at
a time, not at its end; the destination window has 16 bytes. A first `readFrom` on a
converter just constructed returns 2: it writes 41 41 and buffers E2 82, the start of a
three-byte unit, in `srcSmallBuf`. The second `readFrom`, on the view AC 41 41 41, does
not return: its `convert` call decodes E2 82 AC, leaves staged bytes in `srcSmallBuf`, and
two passes later `decoded.numBytes - smallBufInitialNumBytes` = 1 - 3 wraps around at line
66. One `readFrom` on the whole stream in a single view returns 8. -/
theorem readFrom_after_torn_unit_out_of_range :
    WellBehaved utf8Like utf8Like ∧
    readFrom utf8Like utf8Like [([0x41, 0x41, 0xE2, 0x82], false)] TextConverter.fresh 16 =
      .ok ⟨2, [0x41, 0x41], 14, ⟨[0xE2, 0x82], []⟩, [], false⟩ ∧
    Reachable utf8Like utf8Like ⟨[0xE2, 0x82], []⟩ ∧
    readFrom utf8Like utf8Like [([0xAC, 0x41, 0x41, 0x41], false)] ⟨[0xE2, 0x82], []⟩ 16 =
      .error (.outOfRange 66) ∧
    readFrom utf8Like utf8Like
        [([0x41, 0x41, 0xE2, 0x82, 0xAC, 0x41, 0x41, 0x41], false)] TextConverter.fresh 16 =
      .ok ⟨8, [0x41, 0x41, 0xE2, 0x82, 0xAC, 0x41, 0x41, 0x41], 8, ⟨[], []⟩, [], false⟩ :=
  ⟨utf8Like_wellBehaved, rfl,
    Reachable.call TextConverter.fresh 16 [0x41, 0x41, 0xE2, 0x82] false
      ⟨[0xE2, 0x82], [], [0x41, 0x41], 14, [], true⟩ Reachable.fresh rfl,
    rfl, rfl⟩

/-! ## The log does not change what `convert` does -/

theorem convertMainLoopLog_fst (dstEncoding srcEncoding : TextEncoding) (flush : Bool) :
    ∀ (b : Nat) (c : Conv) (log : List Event),
      (convertMainLoopLog dstEncoding srcEncoding flush b c log).1 =
        convertMainLoop dstEncoding srcEncoding flush b c := by
  intro b
  induction b with
  | zero => intro c log; rfl
  | succ n ih =>
    intro c log
    simp only [convertMainLoopLog, convertMainLoop, apply_ite Prod.fst, ih]

theorem convertAfterCarryLog_fst (dstEncoding srcEncoding : TextEncoding) (flush : Bool)
    (c : Conv) (log : List Event) :
    (convertAfterCarryLog dstEncoding srcEncoding flush c log).1 =
      convertAfterCarry dstEncoding srcEncoding flush c := by
  simp only [convertAfterCarryLog, convertAfterCarry, apply_ite Prod.fst,
    convertMainLoopLog_fst]

theorem convertCarryLoopLog_fst (dstEncoding srcEncoding : TextEncoding) (flush : Bool) :
    ∀ (b : Nat) (c : Conv) (log : List Event),
      (convertCarryLoopLog dstEncoding srcEncoding flush b c log).1 =
        convertCarryLoop dstEncoding srcEncoding flush b c := by
  intro b
  induction b with
  | zero => intro c log; rfl
  | succ n ih =>
    intro c log
    simp only [convertCarryLoopLog, convertCarryLoop, apply_ite Prod.fst, ih,
      convertAfterCarryLog_fst]

theorem convertLog_fst (dstEncoding srcEncoding : TextEncoding) (self : TextConverter)
    (dstNumBytes : Nat) (srcBuf : List Nat) (flush : Bool) :
    (convertLog dstEncoding srcEncoding self dstNumBytes srcBuf flush).1 =
      convert dstEncoding srcEncoding self dstNumBytes srcBuf flush :=
  convertCarryLoopLog_fst dstEncoding srcEncoding flush _ _ _

/-! ## What the log holds -/

theorem forall_mem_append_singleton {Q : Event → Prop} {log : List Event} {ev : Event}
    (h1 : ∀ e ∈ log, Q e) (h2 : Q ev) : ∀ e ∈ log ++ [ev], Q e := by
  intro e he
  rcases List.mem_append.mp he with h | h
  · exact h1 e h
  · rw [List.mem_singleton.mp h]; exact h2

theorem convertMainLoopLog_events (dstEncoding srcEncoding : TextEncoding) (flush : Bool) :
    ∀ (b : Nat) (c : Conv) (log : List Event), c.dstSmallBuf = [] →
      (∀ e ∈ log, e.dstSmallBufEmpty ∧ e.roomForUnit) →
      ∀ e ∈ (convertMainLoopLog dstEncoding srcEncoding flush b c log).2,
        e.dstSmallBufEmpty ∧ e.roomForUnit := by
  intro b
  induction b with
  | zero => intro c log _ hlog; exact hlog
  | succ n ih =>
    intro c log h0 hlog
    have hdec : ∀ e ∈ log ++ [Event.decode 87 c.srcBuf c.dstSmallBuf.length],
        e.dstSmallBufEmpty ∧ e.roomForUnit :=
      forall_mem_append_singleton hlog
        ⟨by simp [Event.dstSmallBufEmpty, h0], by simp [Event.roomForUnit]⟩
    have h105 : c.dstNumBytes ≥ 4 →
        ∀ e ∈ log ++ [Event.decode 87 c.srcBuf c.dstSmallBuf.length] ++
          [Event.encode 105 c.dstNumBytes c.dstSmallBuf.length],
        e.dstSmallBufEmpty ∧ e.roomForUnit := fun h =>
      forall_mem_append_singleton hdec
        ⟨by simp [Event.dstSmallBufEmpty, h0], by simp [Event.roomForUnit]; omega⟩
    have h110 : ∀ e ∈ log ++ [Event.decode 87 c.srcBuf c.dstSmallBuf.length] ++
          [Event.encode 110 4 c.dstSmallBuf.length],
        e.dstSmallBufEmpty ∧ e.roomForUnit :=
      forall_mem_append_singleton hdec
        ⟨by simp [Event.dstSmallBufEmpty, h0], by simp [Event.roomForUnit]⟩
    simp only [convertMainLoopLog]
    split_ifs with h3 h4 h5 h6 h7 h8 h9 h10 h11 h12
    all_goals
      first
        | exact hlog
        | exact hdec
        | exact h105 h8
        | exact h110
        | exact ih _ _ h0 (h105 h8)
        | skip
    apply ih _ _ _ h110
    rw [flushDstSmallBuf_dstSmallBuf]
    rw [flushDstSmallBuf_dstNumBytes] at h12
    apply List.drop_of_length_le
    dsimp only at h12 ⊢
    omega

theorem convertAfterCarryLog_events (dstEncoding srcEncoding : TextEncoding) (flush : Bool)
    (c : Conv) (log : List Event)
    (hlog : ∀ e ∈ log, e.dstSmallBufEmpty ∧ e.roomForUnit) :
    ∀ e ∈ (convertAfterCarryLog dstEncoding srcEncoding flush c log).2,
      e.dstSmallBufEmpty ∧ e.roomForUnit := by
  unfold convertAfterCarryLog
  split_ifs
  all_goals
    first
      | exact hlog
      | exact convertMainLoopLog_events dstEncoding srcEncoding flush _ c log
          (List.length_eq_zero.mp (by assumption)) hlog

theorem convertCarryLoopLog_events (dstEncoding srcEncoding : TextEncoding) (flush : Bool) :
    ∀ (b : Nat) (c : Conv) (log : List Event),
      (∀ e ∈ log, e.dstSmallBufEmpty ∧ e.roomForUnit) →
      ∀ e ∈ (convertCarryLoopLog dstEncoding srcEncoding flush b c log).2,
        e.dstSmallBufEmpty ∧ e.roomForUnit := by
  intro b
  induction b with
  | zero => intro c log hlog; exact hlog
  | succ n ih =>
    intro c log hlog
    simp only [convertCarryLoopLog]
    generalize flushDstSmallBuf c = c1
    generalize hst : c1.srcSmallBuf ++
      List.take (min (4 - c1.srcSmallBuf.length) c1.srcBuf.length) c1.srcBuf = staged
    generalize srcEncoding.decodePoint staged = decoded
    generalize dstEncoding.encodePoint 4 decoded.point = encoded
    generalize (decoded.numBytes + 4294967296 - c1.srcSmallBuf.length) % 4294967296 = ofs
    by_cases h3 : c.dstSmallBuf.length > 0 ∨ c.srcSmallBuf.length > 0
    swap
    · rw [if_neg h3]
      exact convertAfterCarryLog_events dstEncoding srcEncoding flush c log hlog
    rw [if_pos h3]
    by_cases h4 : c1.dstNumBytes = 0
    · rw [if_pos h4]; exact hlog
    rw [if_neg h4]
    by_cases h5 : c1.dstSmallBuf.length = 0
    swap
    · rw [if_pos h5]; exact hlog
    rw [if_neg (not_not.mpr h5)]
    by_cases h6 : c1.srcSmallBuf.length = 0
    · rw [if_pos h6]
      exact convertAfterCarryLog_events dstEncoding srcEncoding flush c1 log hlog
    rw [if_neg h6]
    have hdec : ∀ e ∈ log ++ [Event.decode 57 staged c1.dstSmallBuf.length],
        e.dstSmallBufEmpty ∧ e.roomForUnit :=
      forall_mem_append_singleton hlog
        ⟨by simp [Event.dstSmallBufEmpty, h5], by simp [Event.roomForUnit]⟩
    have henc : ∀ e ∈ log ++ [Event.decode 57 staged c1.dstSmallBuf.length] ++
          [Event.encode 71 4 c1.dstSmallBuf.length],
        e.dstSmallBufEmpty ∧ e.roomForUnit :=
      forall_mem_append_singleton hdec
        ⟨by simp [Event.dstSmallBufEmpty, h5], by simp [Event.roomForUnit]⟩
    by_cases h7 : decoded.point < 0
    · rw [if_pos h7]; exact hdec
    rw [if_neg h7]
    by_cases h8 : decoded.status = Status.Truncated ∧ flush = false
    · rw [if_pos h8]
      by_cases h9 : staged.length < 4
      · rw [if_neg (not_not.mpr h9)]; exact hdec
      · rw [if_pos h9]; exact hdec
    rw [if_neg h8]
    by_cases h9 : ofs > c1.srcBuf.length
    · rw [if_pos h9]; exact hdec
    rw [if_neg h9]
    by_cases h10 : decoded.numBytes > staged.length
    · rw [if_pos h10]; exact hdec
    rw [if_neg h10]
    by_cases h11 : encoded.length > 0
    swap
    · rw [if_pos h11]; exact henc
    rw [if_neg (not_not.mpr h11)]
    exact ih _ _ henc

theorem convertLog_events (dstEncoding srcEncoding : TextEncoding) (self : TextConverter)
    (dstNumBytes : Nat) (srcBuf : List Nat) (flush : Bool) :
    ∀ e ∈ (convertLog dstEncoding srcEncoding self dstNumBytes srcBuf flush).2,
      e.dstSmallBufEmpty ∧ e.roomForUnit :=
  convertCarryLoopLog_events dstEncoding srcEncoding flush _ _ []
    (fun _ h => absurd h (List.not_mem_nil _))

/-! ## The assertions of lines 40 and 82 hold -/

theorem convertMainLoop_ne_assertion (dstEncoding srcEncoding : TextEncoding) (flush : Bool)
    (f : Fault) (hf : f = Fault.assertion 40 ∨ f = Fault.assertion 82) :
    ∀ (b : Nat) (c : Conv), convertMainLoop dstEncoding srcEncoding flush b c ≠ .error f := by
  intro b
  induction b with
  | zero => intro c; rcases hf with hf | hf <;> simp [convertMainLoop, hf]
  | succ n ih =>
    intro c
    simp only [convertMainLoop]
    split_ifs
    all_goals
      first
        | exact ih _
        | (rcases hf with hf | hf <;> simp [hf])

theorem convertAfterCarry_ne_assertion (dstEncoding srcEncoding : TextEncoding) (flush : Bool)
    (f : Fault) (hf : f = Fault.assertion 40 ∨ f = Fault.assertion 82) (c : Conv)
    (h0 : c.dstSmallBuf.length = 0) :
    convertAfterCarry dstEncoding srcEncoding flush c ≠ .error f := by
  unfold convertAfterCarry
  rw [if_neg (not_not.mpr h0)]
  split_ifs
  all_goals
    first
      | exact convertMainLoop_ne_assertion dstEncoding srcEncoding flush f hf _ _
      | (rcases hf with hf | hf <;> simp [hf])

theorem convertCarryLoop_ne_assertion (dstEncoding srcEncoding : TextEncoding) (flush : Bool)
    (f : Fault) (hf : f = Fault.assertion 40 ∨ f = Fault.assertion 82) :
    ∀ (b : Nat) (c : Conv), convertCarryLoop dstEncoding srcEncoding flush b c ≠ .error f := by
  intro b
  induction b with
  | zero => intro c; rcases hf with hf | hf <;> simp [convertCarryLoop, hf]
  | succ n ih =>
    intro c
    simp only [convertCarryLoop]
    have hfd := flushDstSmallBuf_dstNumBytes c
    have hfs := flushDstSmallBuf_dstSmallBuf c
    generalize flushDstSmallBuf c = c1 at hfd hfs ⊢
    generalize hst : c1.srcSmallBuf ++
      List.take (min (4 - c1.srcSmallBuf.length) c1.srcBuf.length) c1.srcBuf = staged
    generalize srcEncoding.decodePoint staged = decoded
    generalize dstEncoding.encodePoint 4 decoded.point = encoded
    generalize (decoded.numBytes + 4294967296 - c1.srcSmallBuf.length) % 4294967296 = ofs
    have hfault : ∀ line, line ≠ 40 → line ≠ 82 →
        (Except.error (Fault.assertion line) : Except Fault Conv) ≠ .error f := by
      intro line h1 h2
      rcases hf with hf | hf <;> simp [hf, h1, h2]
    have hrange : ∀ line,
        (Except.error (Fault.outOfRange line) : Except Fault Conv) ≠ .error f := by
      intro line
      rcases hf with hf | hf <;> simp [hf]
    have hok : ∀ r : Conv, (Except.ok r : Except Fault Conv) ≠ .error f := by
      intro r; simp
    by_cases h3 : c.dstSmallBuf.length > 0 ∨ c.srcSmallBuf.length > 0
    swap
    · rw [if_neg h3]
      exact convertAfterCarry_ne_assertion dstEncoding srcEncoding flush f hf c (by omega)
    rw [if_pos h3]
    by_cases h4 : c1.dstNumBytes = 0
    · rw [if_pos h4]; exact hok _
    rw [if_neg h4]
    have h5 : c1.dstSmallBuf.length = 0 := by
      rw [hfs, List.length_drop]
      omega
    rw [if_neg (not_not.mpr h5)]
    by_cases h6 : c1.srcSmallBuf.length = 0
    · rw [if_pos h6]
      exact convertAfterCarry_ne_assertion dstEncoding srcEncoding flush f hf c1 h5
    rw [if_neg h6]
    by_cases h7 : decoded.point < 0
    · rw [if_pos h7]; exact hfault _ (by decide) (by decide)
    rw [if_neg h7]
    by_cases h8 : decoded.status = Status.Truncated ∧ flush = false
    · rw [if_pos h8]
      by_cases h9 : staged.length < 4
      · rw [if_neg (not_not.mpr h9)]; exact hok _
      · rw [if_pos h9]; exact hfault _ (by decide) (by decide)
    rw [if_neg h8]
    by_cases h9 : ofs > c1.srcBuf.length
    · rw [if_pos h9]; exact hrange _
    rw [if_neg h9]
    by_cases h10 : decoded.numBytes > staged.length
    · rw [if_pos h10]; exact hrange _
    rw [if_neg h10]
    by_cases h11 : encoded.length > 0
    swap
    · rw [if_pos h11]; exact hfault _ (by decide) (by decide)
    rw [if_neg (not_not.mpr h11)]
    exact ih _

/-- C16. During every call of `convert`, from every converter state and for every pair of
encodings, `dstSmallBuf` holds nothing at each call of `decodePoint` (lines 57 and 87) and
at each call of `encodePoint` (so `encodePoint` never writes into `dstSmallBuf` over
bytes not yet drained); the log that records these calls does not change what `convert`
does; and the assertions `dstSmallBuf.numBytes == 0` of lines 40 and 82 never fail. -/
theorem convert_decodes_with_dstSmallBuf_empty (dstEncoding srcEncoding : TextEncoding)
    (self : TextConverter) (dstNumBytes : Nat) (srcBuf : List Nat) (flush : Bool) :
    (convertLog dstEncoding srcEncoding self dstNumBytes srcBuf flush).1 =
      convert dstEncoding srcEncoding self dstNumBytes srcBuf flush ∧
    (∀ e ∈ (convertLog dstEncoding srcEncoding self dstNumBytes srcBuf flush).2,
      e.dstSmallBufEmpty) ∧
    convert dstEncoding srcEncoding self dstNumBytes srcBuf flush ≠ .error (.assertion 40) ∧
    convert dstEncoding srcEncoding self dstNumBytes srcBuf flush ≠ .error (.assertion 82) :=
  ⟨convertLog_fst dstEncoding srcEncoding self dstNumBytes srcBuf flush,
    fun e he => (convertLog_events dstEncoding srcEncoding self dstNumBytes srcBuf flush e he).1,
    convertCarryLoop_ne_assertion dstEncoding srcEncoding flush _ (Or.inl rfl) _ _,
    convertCarryLoop_ne_assertion dstEncoding srcEncoding flush _ (Or.inr rfl) _ _⟩

/-- C17. During every call of `convert`, from every converter state and for every pair of
encodings, each call of `encodePoint` is given a buffer of at least 4 bytes: the
destination window at line 105, reached only when the window has at least 4 bytes left,
and the 4 bytes of `dstSmallBuf` at lines 71 and 110. The log that records these calls
does not change what `convert` does. -/
theorem convert_encodes_with_room (dstEncoding srcEncoding : TextEncoding)
    (self : TextConverter) (dstNumBytes : Nat) (srcBuf : List Nat) (flush : Bool) :
    (convertLog dstEncoding srcEncoding self dstNumBytes srcBuf flush).1 =
      convert dstEncoding srcEncoding self dstNumBytes srcBuf flush ∧
    ∀ e ∈ (convertLog dstEncoding srcEncoding self dstNumBytes srcBuf flush).2,
      e.roomForUnit ∧
      ∀ line room n, e = Event.encode line room n → 4 ≤ room ∧ (line ≠ 105 → room = 4) :=
  ⟨convertLog_fst dstEncoding srcEncoding self dstNumBytes srcBuf flush,
    fun e he =>
      have h := (convertLog_events dstEncoding srcEncoding self dstNumBytes srcBuf flush e he).2
      ⟨h, fun line room n heq => by rw [heq] at h; exact h⟩⟩

/-- The log of one call: a converter just constructed, the source C3 A9 41 and a
destination window of 5 bytes. -/
theorem convertLog_sample :
    convertLog utf8Like utf8Like TextConverter.fresh 5 [0xC3, 0xA9, 0x41] true =
      (.ok ⟨[], [], [0xC3, 0xA9, 0x41], 2, [], true⟩,
        [Event.decode 87 [0xC3, 0xA9, 0x41] 0, Event.encode 105 5 0,
          Event.decode 87 [0x41] 0, Event.encode 110 4 0]) := by
  rfl

end ply
